import Mathlib

/-!
Shallow embedding of the MPEG-TS demultiplexer in
`library/jni/TSExtractorNative.c` (the `TSExtractorNative` native core).

Bytes are modelled as `Nat` (always < 256 where produced by the model);
C `int` / `int64_t` arithmetic that can go negative is modelled with `Int`;
`uint64_t` accumulation that stays non-negative is modelled with `Nat`
(`long` is taken to be 64 bits wide, as on LP64 Android).
Buffers (`uint8_t *`) are modelled as `List Nat`; `memcpy` into the middle of
a buffer is the list splice `writeBytes`.  `malloc`ed memory is modelled as
zero-filled (the code never reads bytes it did not write, except through the
undefined behaviours flagged below).

Genuinely crashing undefined behaviour in the C code (a NULL `currentSample`
dereference, and `memcpy` with a negative length cast to `size_t`) is made
observable through a `UB` event list; where the model must continue past such
a point it does so with the copy skipped.  Out-of-range packet reads
(`packet[i]` with `i` beyond the 188-byte packet) stay inside the large JNI
buffer in the C code and are read-only; the model determinises them to 0 via
`List.getD`.

The JNI glue (`_fill_holder`, field lookups) only copies a completed sample
out to the caller; the model returns the `Sample` value itself.  The ADTS
audio-configuration sniffing (`audioConfigFound`, `sampleRateIndex`,
`channelConfigIndex`) writes fields that none of the verified properties
read; it is omitted from the state.  Ghost fields (`log`, `ub`, `enq0/1`,
`del0/1`, `packetsConsumed`) record events without influencing behaviour.
-/

set_option maxRecDepth 200000

namespace TSX

/-- multiple of 188, `#define BUFFER_SIZE (200*188)` -/
def BUFFER_SIZE : Nat := 200 * 188

def RESULT_NEED_MORE_DATA : Nat := 1
def RESULT_END_OF_STREAM : Nat := 2
def RESULT_READ_SAMPLE_FULL : Nat := 3

def TYPE_VIDEO : Nat := 0
def TYPE_AUDIO : Nat := 1

def PARSE_ONE_PACKET_AGAIN : Nat := 0
def PARSE_ONE_PACKET_WAIT : Nat := 1
def PARSE_ONE_PACKET_FINISHED : Nat := 2

def STREAM_TYPE_AAC_ADTS : Nat := 0xf
def STREAM_TYPE_H264 : Nat := 0x1b

/-- Diagnostics emitted through `__android_log_print` (observable events). -/
inductive Diag where
  | truncation (size : Nat)
  | ccError (oldc newc : Nat)
  | tableIdMismatch (got expected : Nat)
  | badStartCode (b0 b1 b2 : Nat)
  | pesLengthMismatch (got : Nat) (expected : Int)
  deriving Repr, DecidableEq

/-- Undefined behaviour events of the C code, made observable. -/
inductive UB where
  | nullSample   -- `pesh->currentSample` dereferenced while NULL
  | oobCopy      -- `memcpy` whose computed `int` length is negative
  deriving Repr, DecidableEq

/-- `struct Sample`: a growable access-unit buffer (`next` link is the queue,
modelled by the queue lists themselves). -/
structure Sample where
  data : List Nat
  position : Nat
  maxSize : Nat
  timeUs : Int
  deriving Repr, DecidableEq

/-- `sample_create` (fresh allocation path): 64 kB buffer, position 0. -/
def sampleCreate : Sample :=
  { data := List.replicate (64 * 1024) 0
    position := 0
    maxSize := 64 * 1024
    timeUs := 0 }

/-- `memcpy(dst + pos, src, src.length)` as a list splice. -/
def writeBytes (dst : List Nat) (pos : Nat) (src : List Nat) : List Nat :=
  dst.take pos ++ src ++ dst.drop (pos + src.length)

/-- `sample_resize`: reallocate to `newSize`, copying the old `maxSize` bytes
(the tail of the new allocation is uninitialised, modelled as zeros). -/
def sampleResize (s : Sample) (newSize : Nat) : Sample :=
  { s with data := s.data ++ List.replicate (newSize - s.maxSize) 0
           maxSize := newSize }

/-- The 5-byte PTS extraction of `pes_handler_handle_payload` (lines 294-298):
`pts = (long)(p[0] & 0x0e) << 28;  pts |= p[1] << 21;  pts |= (p[2] & 0xfe) << 13;
pts |= p[3] << 6;  pts |= (p[4] & 0xfe) >> 2;`. -/
def ptsDecode (b0 b1 b2 b3 b4 : Nat) : Nat :=
  ((b0 &&& 0x0e) <<< 28) ||| (b1 <<< 21) ||| ((b2 &&& 0xfe) <<< 13) |||
    (b3 <<< 6) ||| ((b4 &&& 0xfe) >>> 2)

/-- `struct PESHandler` (pid and cc_counter live in the pipeline `Handler`). -/
structure PESH where
  type : Nat
  length : Int
  currentSample : Option Sample
  diags : List Diag
  ub : List UB
  deriving Repr, DecidableEq

/-- `pes_handler_create` (`_mallocz`: `length = 0`, `currentSample = NULL`). -/
def pesHandlerCreate (ty : Nat) : PESH :=
  { type := ty, length := 0, currentSample := none, diags := [], ub := [] }

/-- Offset of the PES payload inside a unit-start packet, as computed by the
code: start code (3) + stream id (1) + length (2) + 1 skipped byte + flags (1)
+ header_data_length byte (1) gives `fixedOffset = offset + 9`, and the copy
resumes at `fixedOffset + headerDataLength`. -/
def pesPayloadStart (packet : List Nat) (offset : Nat) : Nat :=
  offset + 9 + packet.getD (offset + 8) 0

/-- The PES header flags byte (read at `offset + 7` of a unit-start call). -/
def pesFlags (packet : List Nat) (offset : Nat) : Nat :=
  packet.getD (offset + 7) 0

/-- The `pts` accumulator of the unit-start branch: the 5-byte field at
`fixedOffset = offset + 9` when flags bit 0x80 is set, otherwise 0. -/
def pesPts (packet : List Nat) (offset : Nat) : Nat :=
  if pesFlags packet offset &&& 0x80 = 0x80 then
    ptsDecode (packet.getD (offset + 9) 0) (packet.getD (offset + 10) 0)
      (packet.getD (offset + 11) 0) (packet.getD (offset + 12) 0)
      (packet.getD (offset + 13) 0)
  else 0

/-- `currentSample->timeUs = pts * 1000 / 45; timeUs -= 10 * 1000000;`
(the second line is the hard-coded offset marked `XXX: remove`). -/
def pesUnitStartTimeUs (packet : List Nat) (offset : Nat) : Int :=
  (pesPts packet offset * 1000 / 45 : Nat) - 10 * 1000000

/-- The unit-start branch of `pes_handler_handle_payload`. -/
def pesUnitStart (h : PESH) (packet : List Nat) (offset : Nat) :
    PESH × Option Sample :=
    -- output previous packet
    let finalized := h.currentSample
    let d1 : List Diag :=
      match finalized with
      | some s =>
          if h.length ≠ 0 ∧ h.length ≠ (s.position : Int) then
            [Diag.pesLengthMismatch s.position h.length]
          else []
      | none => []
    let s := sampleCreate
    let d2 : List Diag :=
      if packet.getD offset 0 ≠ 0 ∨ packet.getD (offset + 1) 0 ≠ 0 ∨
          packet.getD (offset + 2) 0 ≠ 1 then
        [Diag.badStartCode (packet.getD offset 0) (packet.getD (offset + 1) 0)
          (packet.getD (offset + 2) 0)]
      else []
    -- offset += 3 (start code); offset++ (stream id)
    let len : Int := (((packet.getD (offset + 4) 0) <<< 8) |||
      packet.getD (offset + 5) 0 : Nat)
    -- offset += 2 (length); offset++ (skip some stuff)
    let headerDataLength := packet.getD (offset + 8) 0
    -- (the DTS branch only advances `offset`, which is then overwritten)
    let timeUs : Int := pesUnitStartTimeUs packet offset
    let len : Int := if len > 0 then len - (headerDataLength + 3 : Nat) else len
    let o2 := offset + 9 + headerDataLength
    if 188 < o2 then
      -- memcpy(data, packet + offset, 188 - offset) with 188 - offset < 0
      ({ h with currentSample := some { s with timeUs := timeUs }
                length := len
                diags := h.diags ++ d1 ++ d2
                ub := h.ub ++ [UB.oobCopy] }, finalized)
    else
      let s := { s with data := writeBytes s.data 0 (packet.drop o2)
                        position := 188 - o2
                        timeUs := timeUs }
      ({ h with currentSample := some s
                length := len
                diags := h.diags ++ d1 ++ d2 }, finalized)

/-- The continuation branch of `pes_handler_handle_payload`. -/
def pesCont (h : PESH) (packet : List Nat) (offset : Nat) :
    PESH × Option Sample :=
    match h.currentSample with
    | none =>
        -- `pesh->currentSample->position` dereferences NULL
        ({ h with ub := h.ub ++ [UB.nullSample] }, none)
    | some s =>
        let s :=
          if s.maxSize < s.position + 188 then
            sampleResize s (2 * (s.position + 188))
          else s
        if 188 < offset then
          ({ h with currentSample := some s, ub := h.ub ++ [UB.oobCopy] }, none)
        else
          let s := { s with
            data := writeBytes s.data s.position (packet.drop offset)
            position := s.position + (188 - offset) }
          ({ h with currentSample := some s }, none)

/-- `pes_handler_handle_payload`.  Returns the updated handler state and the
finalized previous sample, if any (the caller enqueues it, as the code does
through `tsp->sampleLastNext`). -/
def pesStep (h : PESH) (packet : List Nat) (offset : Nat) (unitStart : Bool) :
    PESH × Option Sample :=
  if unitStart then pesUnitStart h packet offset else pesCont h packet offset

/-- Fold a list of dispatched calls `(packet, offset, unitStart)` through a
PES handler, discarding the finalized outputs. -/
def pesRun (h : PESH) (calls : List (List Nat × Nat × Bool)) : PESH :=
  calls.foldl (fun h c => (pesStep h c.1 c.2.1 c.2.2).1) h

/-- `struct SectionHandler` (pid and cc_counter live in the pipeline
`Handler`; `section` is a Lean keyword, hence `sectionBuf`). -/
structure SecH where
  tableID : Nat
  sectionBuf : List Nat
  sectionMaxSize : Nat
  sectionLength : Nat
  sectionWriteOffset : Nat
  diags : List Diag
  ub : List UB
  deriving Repr, DecidableEq

/-- `section_handler_init` state after `_mallocz`. -/
def secHandlerCreate (tableID : Nat) : SecH :=
  { tableID := tableID, sectionBuf := [], sectionMaxSize := 0
    sectionLength := 0, sectionWriteOffset := 0, diags := [], ub := [] }

/-- The Idle header phase of `section_handler_handle_payload`: when
`sectionLength == 0`, consume the pointer_field, validate the table id, read
the 12-bit section length, grow the buffer to twice the declared length if
needed, and reset the write offset; returns the advanced offset. -/
def secIdle (sh : SecH) (packet : List Nat) (offset : Nat) : SecH × Nat :=
  if sh.sectionLength = 0 then
    let tableID := packet.getD (offset + 1) 0
    let d : List Diag :=
      if sh.tableID ≠ tableID then [Diag.tableIdMismatch tableID sh.tableID]
      else []
    let sl := ((packet.getD (offset + 2) 0 &&& 0xf) <<< 8) |||
      packet.getD (offset + 3) 0
    let sh :=
      if sh.sectionMaxSize < sl then
        { sh with sectionBuf := List.replicate (sl * 2) 0
                  sectionMaxSize := sl * 2 }
      else sh
    ({ sh with sectionLength := sl, sectionWriteOffset := 0
               diags := sh.diags ++ d }, offset + 4)
  else (sh, offset)

/-- `copy = 188 - offset; if (sectionLength - sectionWriteOffset < copy)
copy = sectionLength - sectionWriteOffset;`. -/
def secCopyAmount (sh : SecH) (offset : Nat) : Nat :=
  if sh.sectionLength - sh.sectionWriteOffset < 188 - offset then
    sh.sectionLength - sh.sectionWriteOffset
  else 188 - offset

/-- `memcpy(section + sectionWriteOffset, packet + offset, copy)`. -/
def secCopyBuf (sh : SecH) (packet : List Nat) (offset : Nat) : List Nat :=
  writeBytes sh.sectionBuf sh.sectionWriteOffset
    ((packet.drop offset).take (secCopyAmount sh offset))

/-- The copy phase of `section_handler_handle_payload`: copy
`min(188 - offset, sectionLength - sectionWriteOffset)` bytes and fire the
section callback when the write offset reaches the declared length. -/
def secCopy (sh : SecH) (packet : List Nat) (offset : Nat) :
    SecH × Option (List Nat × Nat) × Nat :=
  if 188 < offset then
    -- `copy = 188 - offset` is negative: memcpy length underflows
    ({ sh with ub := sh.ub ++ [UB.oobCopy] }, none, 0)
  else if sh.sectionWriteOffset + secCopyAmount sh offset = sh.sectionLength then
    ({ sh with sectionBuf := secCopyBuf sh packet offset
               sectionWriteOffset := sh.sectionWriteOffset + secCopyAmount sh offset
               sectionLength := 0 },
      some (secCopyBuf sh packet offset, sh.sectionLength),
      secCopyAmount sh offset)
  else
    ({ sh with sectionBuf := secCopyBuf sh packet offset
               sectionWriteOffset := sh.sectionWriteOffset + secCopyAmount sh offset },
      none, secCopyAmount sh offset)

/-- `section_handler_handle_payload`.  Returns the new state, the completed
section (buffer contents and its declared length) when `handleSection` fires,
and the number of bytes copied this call. -/
def secStep (sh : SecH) (packet : List Nat) (offset : Nat) :
    SecH × Option (List Nat × Nat) × Nat :=
  let r := secIdle sh packet offset
  secCopy r.1 packet r.2

/-- Fold dispatched `(packet, offset)` calls through a section handler. -/
def secRun (sh : SecH) (calls : List (List Nat × Nat)) : SecH :=
  calls.foldl (fun sh c => (secStep sh c.1 c.2).1) sh

/-- The program-entry loop of `pat_handler_handle_section`
(`for (i = 5; i < dataLength - 4; )`): collects the PMT PID of EVERY program
entry, in order (the code loops over all entries, assigning `tsp->pmt_pid`
and calling `pmt_handler_create` each time).  Structural fuel recursion; the
loop advances `i` by 4 each iteration so `len` iterations always suffice. -/
def patProgramsAux (data : List Nat) (len : Nat) : Nat → Nat → List Nat
  | 0, _ => []
  | fuel + 1, i =>
      if i < len - 4 then
        (((data.getD (i + 2) 0 &&& 0x1f) <<< 8) ||| data.getD (i + 3) 0) ::
          patProgramsAux data len fuel (i + 4)
      else []

/-- PMT PIDs registered by `pat_handler_handle_section`, in creation order. -/
def patPrograms (data : List Nat) (len : Nat) : List Nat :=
  patProgramsAux data len len 5

/-- `streamType = data[i]` of a PMT elementary-stream entry. -/
def pmtStreamType (data : List Nat) (i : Nat) : Nat := data.getD i 0

/-- `streamPID = ((data[i+1] & 0x1f) << 8) | data[i+2]`. -/
def pmtStreamPID (data : List Nat) (i : Nat) : Nat :=
  ((data.getD (i + 1) 0 &&& 0x1f) <<< 8) ||| data.getD (i + 2) 0

/-- `ES_info_length = ((data[i+3] & 0xf) << 8) | data[i+4]`. -/
def pmtESInfoLength (data : List Nat) (i : Nat) : Nat :=
  ((data.getD (i + 3) 0 &&& 0xf) <<< 8) ||| data.getD (i + 4) 0

/-- The index of the next elementary-stream entry (5 fixed bytes plus the
descriptor bytes). -/
def pmtNext (data : List Nat) (i : Nat) : Nat := i + 5 + pmtESInfoLength data i

/-- The elementary-stream entry loop of `pmt_handler_handle_section`:
returns the `(streamPID, type)` PES registrations made, in creation order.
`aFound`/`vFound` model `audio_handler != NULL` / `video_handler != NULL`.
Structural fuel recursion; the loop advances `i` by at least 5 per
iteration, so `len` iterations always suffice. -/
def pmtWalk (data : List Nat) (len : Nat) : Nat → Nat → Bool → Bool →
    List (Nat × Nat)
  | 0, _, _, _ => []
  | fuel + 1, i, aFound, vFound =>
      if i < len - 4 then
        if ¬aFound ∧ pmtStreamType data i = STREAM_TYPE_AAC_ADTS then
          (pmtStreamPID data i, TYPE_AUDIO) ::
            pmtWalk data len fuel (pmtNext data i) true vFound
        else if ¬vFound ∧ pmtStreamType data i = STREAM_TYPE_H264 then
          (pmtStreamPID data i, TYPE_VIDEO) ::
            pmtWalk data len fuel (pmtNext data i) aFound true
        else pmtWalk data len fuel (pmtNext data i) aFound vFound
      else []

/-- The elementary-stream entries of a PMT section, with the same index
stepping as the code's loop (1 byte stream_type, 2 bytes PID, 2 bytes
ES_info_length, then the descriptor bytes). -/
def pmtEntriesAux (data : List Nat) (len : Nat) : Nat → Nat →
    List (Nat × Nat)
  | 0, _ => []
  | fuel + 1, i =>
      if i < len - 4 then
        (pmtStreamType data i, pmtStreamPID data i) ::
          pmtEntriesAux data len fuel (pmtNext data i)
      else []

/-- Index of the first elementary-stream entry: `i = 7`, read
`program_info_length`, `i += 2 + program_info_length`. -/
def pmtFirstEntryIdx (data : List Nat) : Nat :=
  9 + (((data.getD 7 0 &&& 0xf) <<< 8) ||| data.getD 8 0)

/-- PES registrations made by `pmt_handler_handle_section`, in order. -/
def pmtRegs (data : List Nat) (len : Nat) : List (Nat × Nat) :=
  pmtWalk data len len (pmtFirstEntryIdx data) false false

/-- The elementary-stream entries `(stream_type, PID)` of a PMT section. -/
def pmtEntries (data : List Nat) (len : Nat) : List (Nat × Nat) :=
  pmtEntriesAux data len len (pmtFirstEntryIdx data)

/-- The three payload-handler variants (`handlePayload` dispatch targets). -/
inductive HBody where
  | pat (sh : SecH)
  | pmt (sh : SecH)
  | pes (p : PESH)
  deriving Repr, DecidableEq

/-- `struct PayloadHandler` common part: PID, continuity counter (zeroed by
`_mallocz`), and the variant body. -/
structure Handler where
  pid : Nat
  cc : Nat
  body : HBody
  deriving Repr, DecidableEq

def patHandlerCreate : Handler :=
  { pid := 0, cc := 0, body := HBody.pat (secHandlerCreate 0) }

def pmtHandlerCreate (pid : Nat) : Handler :=
  { pid := pid, cc := 0, body := HBody.pmt (secHandlerCreate 2) }

def pesHandlerCreateH (pid ty : Nat) : Handler :=
  { pid := pid, cc := 0, body := HBody.pes (pesHandlerCreate ty) }

/-- `struct TSParser` together with the byte source it pulls from.
`q0`/`q1` are the per-type sample FIFO queues (`sampleHead` plus the
tail pointer); `enq0/1`, `del0/1`, `log`, `packetsConsumed` are ghost
instrumentation with no influence on behaviour. -/
structure TSP where
  src : List Nat
  data : List Nat
  dataSize : Nat
  dataPosition : Nat
  dataIncompletePosition : Nat
  inputStreamFinished : Bool
  handlers : List Handler
  pmt_pid : Nat
  q0 : List Sample
  q1 : List Sample
  enq0 : List Sample
  enq1 : List Sample
  del0 : List Sample
  del1 : List Sample
  log : List Diag
  packetsConsumed : Nat
  deriving Repr, DecidableEq

/-- `tsparser_create`: fresh state with the PAT handler registered at PID 0. -/
def tsparserCreate (src : List Nat) : TSP :=
  { src := src, data := [], dataSize := 0, dataPosition := 0
    dataIncompletePosition := 0, inputStreamFinished := false
    handlers := [patHandlerCreate], pmt_pid := 0
    q0 := [], q1 := [], enq0 := [], enq1 := [], del0 := [], del1 := []
    log := [], packetsConsumed := 0 }

/-- The per-type queue, `tsp->sampleHead[type]` (type 0 = video). -/
def queueOf (t : TSP) (ty : Nat) : List Sample :=
  if ty = 0 then t.q0 else t.q1

/-- Ghost: every sample ever enqueued for a type, in order. -/
def enqOf (t : TSP) (ty : Nat) : List Sample :=
  if ty = 0 then t.enq0 else t.enq1

/-- Ghost: every sample delivered to the caller for a type, in order. -/
def delOf (t : TSP) (ty : Nat) : List Sample :=
  if ty = 0 then t.del0 else t.del1

/-- `*tsp->sampleLastNext[type] = sample` — append at the queue tail. -/
def enqueueSample (t : TSP) (ty : Nat) (s : Sample) : TSP :=
  if ty = 0 then { t with q0 := t.q0 ++ [s], enq0 := t.enq0 ++ [s] }
  else { t with q1 := t.q1 ++ [s], enq1 := t.enq1 ++ [s] }

/-- The flush loop of `_refill_data` over the handler list: clear every PES
handler's in-progress sample, collecting `(type, sample)` in list order. -/
def flushList : List Handler → List Handler × List (Nat × Sample)
  | [] => ([], [])
  | h :: rest =>
      match h.body with
      | HBody.pes ph =>
          match ph.currentSample with
          | some s =>
              ({ h with body := HBody.pes { ph with currentSample := none } }
                 :: (flushList rest).1, (ph.type, s) :: (flushList rest).2)
          | none => (h :: (flushList rest).1, (flushList rest).2)
      | _ => (h :: (flushList rest).1, (flushList rest).2)

def flushHandlers (t : TSP) : TSP :=
  (flushList t.handlers).2.foldl (fun t e => enqueueSample t e.1 e.2)
    { t with handlers := (flushList t.handlers).1 }

/-- The `NonBlockingInputStream.read(buffer, offset, length)` collaborator,
modelled from the spec (§6 Byte Source: `fillBuffer -> bytesRead |
EndOfStream`): returns -1 once the stream is exhausted, otherwise all
currently available bytes up to `length`.  Returns (ret, bytes, rest). -/
def srcRead (src : List Nat) (length : Nat) : Int × List Nat × List Nat :=
  if src.isEmpty then (-1, [], [])
  else
    let n := min src.length length
    ((n : Int), src.take n, src.drop n)

/-- Refill write offset: resume at the incomplete boundary, else 0. -/
def refillOffset (t : TSP) : Nat :=
  if t.dataIncompletePosition ≠ 0 then t.dataIncompletePosition else 0

/-- The source read a refill issues (offset and `BUFFER_SIZE - offset`). -/
def srcR (t : TSP) : Int × List Nat × List Nat :=
  srcRead t.src (BUFFER_SIZE - refillOffset t)

/-- The dead truncation check of `_refill_data` (lines 485-488): `dataSize`
is only ever assigned multiples of 188, so this never fires. -/
def truncCheck (t : TSP) : TSP :=
  if t.dataSize % 188 ≠ 0 then
    { t with log := t.log ++ [Diag.truncation t.dataSize]
             dataSize := 188 * ((t.dataSize + 187) / 188) }
  else t

/-- The successful-read branch of `_refill_data`. -/
def refillStore (t : TSP) : TSP :=
  if (refillOffset t + (srcR t).2.1.length) % 188 ≠ 0 then
    { t with src := (srcR t).2.2
             data := t.data.take (refillOffset t) ++ (srcR t).2.1
             dataIncompletePosition := refillOffset t + (srcR t).2.1.length }
  else
    { t with src := (srcR t).2.2
             data := t.data.take (refillOffset t) ++ (srcR t).2.1
             dataSize := refillOffset t + (srcR t).2.1.length
             dataIncompletePosition := 0
             dataPosition := 0 }

/-- `_refill_data`. -/
def refillData (t : TSP) : TSP :=
  if (srcR t).1 = -1 then
    flushHandlers (truncCheck
      { t with inputStreamFinished := true, src := (srcR t).2.2 })
  else refillStore t

/-- `payload_offset` computation of `tsparser_parse_one_packet` (lines
559-565): 4, plus `packet[4] + 1` more when the adaptation-field bit of
byte 3 is set. -/
def payloadOffsetOf (packet : List Nat) : Nat :=
  if packet.getD 3 0 &&& 0x20 ≠ 0 then 4 + packet.getD 4 0 + 1 else 4

def unitStartOf (packet : List Nat) : Bool :=
  packet.getD 1 0 &&& 0x40 ≠ 0

def pidOf (packet : List Nat) : Nat :=
  ((packet.getD 1 0 &&& 0x1f) <<< 8) ||| packet.getD 2 0

def ccOf (packet : List Nat) : Nat :=
  packet.getD 3 0 &&& 0xf

/-- A default handler for `getD` list access (never reached: indices come
from `findIdx?`). -/
def dummyHandler : Handler := patHandlerCreate

/-- `payloadHandler->handlePayload(...)` virtual dispatch to the handler at
index `i`, including the section callbacks' registration effects:
`pat_handler_handle_section` creates one PMT handler per program entry
(prepending each to the active list) and destroys itself;
`pmt_handler_handle_section` creates the PES handlers and destroys itself;
a completed PES access unit is enqueued on its type's FIFO. -/
def dispatchPayload (t : TSP) (i : Nat) (packet : List Nat) (offset : Nat)
    (unitStart : Bool) : TSP :=
  let h := t.handlers.getD i dummyHandler
  match h.body with
  | HBody.pes ph =>
      let r := pesStep ph packet offset unitStart
      let t := { t with
        handlers := t.handlers.set i { h with body := HBody.pes r.1 } }
      match r.2 with
      | some s => enqueueSample t ph.type s
      | none => t
  | HBody.pat sh =>
      let r := secStep sh packet offset
      match r.2.1 with
      | some sec =>
          let pids := patPrograms sec.1 sec.2
          { t with pmt_pid := (pids.getLast?).getD t.pmt_pid
                   handlers := (pids.map pmtHandlerCreate).reverse ++
                     t.handlers.eraseIdx i }
      | none =>
          { t with handlers := t.handlers.set i { h with body := HBody.pat r.1 } }
  | HBody.pmt sh =>
      let r := secStep sh packet offset
      match r.2.1 with
      | some sec =>
          let regs := pmtRegs sec.1 sec.2
          { t with handlers := (regs.map (fun e => pesHandlerCreateH e.1 e.2)).reverse ++
              t.handlers.eraseIdx i }
      | none =>
          { t with handlers := t.handlers.set i { h with body := HBody.pmt r.1 } }

/-- `packet = &tsp->data[tsp->dataPosition]`, one 188-byte slice. -/
def packetAt (t : TSP) : List Nat :=
  (t.data.drop t.dataPosition).take 188

/-- Advance the read cursor past the sliced packet (ghost counter too). -/
def bumpPacket (t : TSP) : TSP :=
  { t with dataPosition := t.dataPosition + 188
           packetsConsumed := t.packetsConsumed + 1 }

/-- The continuity check: `expected = (stored + 1) & 0xf`; a mismatch is
logged (`cc_error`), and the packet's counter is stored unconditionally. -/
def markCC (t : TSP) (i : Nat) (packet : List Nat) : TSP :=
  if ((t.handlers.getD i dummyHandler).cc + 1) &&& 0xf ≠ ccOf packet then
    { t with log := t.log ++
               [Diag.ccError (t.handlers.getD i dummyHandler).cc (ccOf packet)]
             handlers := t.handlers.set i
               { t.handlers.getD i dummyHandler with cc := ccOf packet } }
  else
    { t with handlers := t.handlers.set i
               { t.handlers.getD i dummyHandler with cc := ccOf packet } }

/-- The body of `tsparser_parse_one_packet` after the refill check: slice one
packet, bump the read cursor, find the handler for its PID, check and update
the continuity counter, and dispatch. -/
def consumePacket (t : TSP) : Nat × TSP :=
  match t.handlers.findIdx? (fun h => h.pid = pidOf (packetAt t)) with
  | none => (PARSE_ONE_PACKET_AGAIN, bumpPacket t)
  | some i =>
      (PARSE_ONE_PACKET_AGAIN,
        dispatchPayload (markCC (bumpPacket t) i (packetAt t)) i (packetAt t)
          (payloadOffsetOf (packetAt t)) (unitStartOf (packetAt t)))

/-- `tsparser_parse_one_packet`. -/
def parseOnePacket (t : TSP) : Nat × TSP :=
  if t.dataPosition = t.dataSize ∨ t.dataIncompletePosition ≠ 0 then
    if (refillData t).inputStreamFinished then
      (PARSE_ONE_PACKET_FINISHED, refillData t)
    else if (refillData t).dataPosition = (refillData t).dataSize ∨
        (refillData t).dataIncompletePosition ≠ 0 then
      (PARSE_ONE_PACKET_WAIT, refillData t)
    else consumePacket (refillData t)
  else consumePacket t

/-- The `while (tsp->sampleHead[type] == NULL)` drive loop of `nativeRead`.
The loop consumes at least 188 bytes of source-plus-buffer per `AGAIN`
iteration, so the structural fuel `src.length + dataSize + 1` passed by
`readOne` always outlasts it. -/
def readDrive : Nat → TSP → Nat → TSP
  | 0, t, _ => t
  | fuel + 1, t, ty =>
      if queueOf t ty ≠ [] then t
      else if (parseOnePacket t).1 = PARSE_ONE_PACKET_AGAIN then
        readDrive fuel (parseOnePacket t).2 ty
      else (parseOnePacket t).2

/-- Pop the queue head after a successful read (`_fill_holder` has copied the
sample out; `sample_destroy` recycles it). -/
def popSample (t : TSP) (ty : Nat) (rest : List Sample) (s : Sample) : TSP :=
  if ty = 0 then { t with q0 := rest, del0 := t.del0 ++ [s] }
  else { t with q1 := rest, del1 := t.del1 ++ [s] }

/-- The drive loop with the fuel `readOne` passes (always sufficient: each
`AGAIN` iteration moves at least 188 bytes out of source-plus-buffer). -/
def driveOf (t : TSP) (ty : Nat) : TSP :=
  readDrive (t.src.length + t.dataSize + 1) t ty

/-- `nativeRead(type, holder)`: returns the result code, the delivered
sample (what `_fill_holder` copies to the caller), and the new state. -/
def readOne (t : TSP) (ty : Nat) : (Nat × Option Sample) × TSP :=
  match queueOf (driveOf t ty) ty with
  | s :: rest =>
      ((RESULT_READ_SAMPLE_FULL, some s), popSample (driveOf t ty) ty rest s)
  | [] =>
      if (driveOf t ty).inputStreamFinished then
        ((RESULT_END_OF_STREAM, none), driveOf t ty)
      else ((RESULT_NEED_MORE_DATA, none), driveOf t ty)

/-- `n` successive `nativeRead(type)` calls. -/
def readN (t : TSP) (ty : Nat) : Nat → List (Nat × Option Sample) × TSP
  | 0 => ([], t)
  | n + 1 =>
      ((readOne t ty).1 :: (readN (readOne t ty).2 ty n).1,
        (readN (readOne t ty).2 ty n).2)

/-- `nativeIsReadFinished`: false while the source is live, false while any
per-type queue is non-empty, true otherwise. -/
def nativeIsReadFinished (t : TSP) : Bool :=
  if ¬t.inputStreamFinished then false
  else if t.q0 ≠ [] then false
  else if t.q1 ≠ [] then false
  else true

/-- The 12-bit section length a section handler in Idle state reads from a
packet: `((packet[offset+2] & 0xf) << 8) | packet[offset+3]`. -/
def secDeclared (packet : List Nat) (offset : Nat) : Nat :=
  ((packet.getD (offset + 2) 0 &&& 0xf) <<< 8) ||| packet.getD (offset + 3) 0

/-- Effective copy parameters of one `section_handler_handle_payload` call:
(copy source offset, declared section length, write offset at copy time).
In Idle state the 4 header bytes were consumed and the write offset reset. -/
def secEff (sh : SecH) (packet : List Nat) (offset : Nat) : Nat × Nat × Nat :=
  if sh.sectionLength = 0 then (offset + 4, secDeclared packet offset, 0)
  else (offset, sh.sectionLength, sh.sectionWriteOffset)

/-- All PES handlers in the list have no in-progress sample. -/
def flushedH (hs : List Handler) : Prop :=
  ∀ h ∈ hs, ∀ ph, h.body = HBody.pes ph → ph.currentSample = none

/-- Reachability invariant of the parser state for 188-aligned sources. -/
def Inv (t : TSP) : Prop :=
  t.dataIncompletePosition = 0 ∧
  t.dataPosition ≤ t.dataSize ∧
  188 ∣ t.dataPosition ∧
  188 ∣ t.dataSize ∧
  188 ∣ t.src.length ∧
  (t.inputStreamFinished = true →
    t.src = [] ∧ t.dataPosition = t.dataSize ∧ flushedH t.handlers) ∧
  t.enq0 = t.del0 ++ t.q0 ∧
  t.enq1 = t.del1 ++ t.q1

/-- Unconsumed bytes: source plus the unread part of the working buffer. -/
def mu (t : TSP) : Nat := t.src.length + (t.dataSize - t.dataPosition)

/-- Draining: some number of further reads on `ty` return only Full results
and then EndOfStream, appending exactly the delivered samples to the ghost
`del` list, and ending exhausted with an empty queue in an invariant state. -/
def DrainsTo (t : TSP) (ty : Nat) : Prop :=
  ∃ n rs t',
    readN t ty (n + 1) = (rs ++ [(RESULT_END_OF_STREAM, (none : Option Sample))], t') ∧
    (∀ r ∈ rs, r.1 = RESULT_READ_SAMPLE_FULL) ∧
    delOf t' ty = delOf t ty ++ rs.filterMap (fun r => r.2) ∧
    t'.inputStreamFinished = true ∧ queueOf t' ty = [] ∧ Inv t'
/-- The in-progress sample of `ccGapState`. -/
def ccGapSample : Sample where
  data := List.replicate 200 0
  position := 10
  maxSize := 200
  timeUs := 0


/-- The PES handler state of `ccGapState`. -/
def ccGapPESH : PESH where
  type := 0
  length := 0
  currentSample := some ccGapSample
  diags := []
  ub := []

/-- A concrete parser state used to witness the continuity-gap behaviour:
one registered PES handler (PID 0x102, counter 3, in-progress 10-byte
sample) and one buffered continuation packet with counter 7. -/
def ccGapState : TSP where
  src := []
  data := [0x47, 0x01, 0x02, 0x17] ++ List.replicate 184 0xBB
  dataSize := 188
  dataPosition := 0
  dataIncompletePosition := 0
  inputStreamFinished := false
  handlers := [{ pid := 0x102, cc := 3, body := HBody.pes ccGapPESH }]
  pmt_pid := 0
  q0 := []
  q1 := []
  enq0 := []
  enq1 := []
  del0 := []
  del1 := []
  log := []
  packetsConsumed := 0


/-- Parser-core fields untouched by a state transformation. -/
def CoreEq (t t' : TSP) : Prop :=
  t'.src = t.src ∧ t'.data = t.data ∧ t'.dataSize = t.dataSize ∧
  t'.dataPosition = t.dataPosition ∧
  t'.dataIncompletePosition = t.dataIncompletePosition ∧
  t'.inputStreamFinished = t.inputStreamFinished

/-- The queues only grew at the tail (FIFO), in step with the ghost
`enq` lists, and nothing was delivered. -/
def QExt (t t' : TSP) : Prop :=
  ∃ a0 a1, t'.q0 = t.q0 ++ a0 ∧ t'.enq0 = t.enq0 ++ a0 ∧
    t'.q1 = t.q1 ++ a1 ∧ t'.enq1 = t.enq1 ++ a1 ∧
    t'.del0 = t.del0 ∧ t'.del1 = t.del1

/-- `QExt` with at most `n` samples enqueued in total. -/
def QExtB (t t' : TSP) (n : Nat) : Prop :=
  ∃ a0 a1, t'.q0 = t.q0 ++ a0 ∧ t'.enq0 = t.enq0 ++ a0 ∧
    t'.q1 = t.q1 ++ a1 ∧ t'.enq1 = t.enq1 ++ a1 ∧
    t'.del0 = t.del0 ∧ t'.del1 = t.del1 ∧ a0.length + a1.length ≤ n


end TSX

namespace TSX

/-! ## Claim C10: payload offset bound -/

/-- Claim C10 counterexample: a dispatched packet with the adaptation-field
bit set and adaptation_field_length byte 0xff makes
`payload_offset = 4 + 255 + 1 = 260 > 188`, so the copy length `188 - offset`
computed by the handlers is negative (the claim's bound fails). -/
theorem c10_payload_offset_counterexample :
    payloadOffsetOf ([0x47, 0x02, 0x00, 0x30, 0xff] ++ List.replicate 183 0)
      = 260 ∧
    ¬(payloadOffsetOf ([0x47, 0x02, 0x00, 0x30, 0xff] ++ List.replicate 183 0)
      ≤ 188) ∧
    ([0x47, 0x02, 0x00, 0x30, 0xff] ++ (List.replicate 183 0 : List Nat)).length
      = 188 := by
  refine ⟨by decide, by decide, by simp⟩

/-- Claim C10 (amended): for a dispatched 188-byte packet whose adaptation
field, when present, has a length byte of at most 183, the payload offset
passed to `handlePayload` is 4 (bit clear) or `4 + length + 1 ≤ 188` (bit
set), so the `188 - offset` copy stays inside the packet's 188 bytes. -/
theorem c10_payload_offset_bound (packet : List Nat)
    (h188 : packet.length = 188) (hafl : packet.getD 4 0 ≤ 183) :
    payloadOffsetOf packet ≤ 188 ∧
    (packet.getD 3 0 &&& 0x20 = 0 → payloadOffsetOf packet = 4) ∧
    (packet.getD 3 0 &&& 0x20 ≠ 0 →
      payloadOffsetOf packet = 4 + packet.getD 4 0 + 1) ∧
    (packet.drop (payloadOffsetOf packet)).length
      = 188 - payloadOffsetOf packet := by
  have e : payloadOffsetOf packet =
      if packet.getD 3 0 &&& 0x20 ≠ 0 then 4 + packet.getD 4 0 + 1 else 4 :=
    rfl
  refine ⟨?_, ?_, ?_, ?_⟩
  · rw [e]; split <;> omega
  · intro h; rw [e, if_neg (by simp only [ne_eq, not_not]; exact h)]
  · intro h; rw [e, if_pos h]
  · rw [List.length_drop, h188]

/-- Witness for `c10_payload_offset_bound` at a concrete packet. -/
theorem c10_payload_offset_bound_witness :
    payloadOffsetOf ([0x47, 0x02, 0x00, 0x30, 0xb7] ++ List.replicate 183 0)
      ≤ 188 := by
  have h := c10_payload_offset_bound
    ([0x47, 0x02, 0x00, 0x30, 0xb7] ++ List.replicate 183 0)
    (by simp) (by decide)
  exact h.1

/-! ## Claim C4: PAT takes only the first program (code bug) -/

/-- Claim C4 failing input: a completed PAT section of length 17 holding two
program entries (PMT PIDs 0x100 and 0x110).  The code's loop registers a PMT
handler for each entry (`patPrograms` lists every created handler's PID) and
leaves `pmt_pid` at the last entry, while its own comment says "we just take
the first program". -/
theorem c4_pat_registers_all_programs :
    patPrograms [0, 0, 0, 0, 0, 0, 1, 0x41, 0, 0, 2, 0x41, 0x10, 0, 0, 0, 0] 17
      = [256, 272] ∧
    (patPrograms [0, 0, 0, 0, 0, 0, 1, 0x41, 0, 0, 2, 0x41, 0x10, 0, 0, 0, 0]
      17).length ≠ 1 := by
  refine ⟨by decide, by decide⟩

/-! ## Claim C2: trailing truncation handling (code bug) -/

/-- Claim C2 failing input: a 189-byte stream (one complete packet plus one
trailing byte) delivered by a single source read.  The incomplete fill is
recorded only in `dataIncompletePosition`, so at end of stream `dataSize`
(always a multiple of 188) triggers no truncation diagnostic, and the one
complete packet is never parsed: the reads yield NeedMoreData then
EndOfStream with zero packets consumed and an empty diagnostic log. -/
theorem c2_truncation_packet_lost :
    ((readN (tsparserCreate (List.replicate 189 71)) TYPE_VIDEO 2).1.map
      Prod.fst = [RESULT_NEED_MORE_DATA, RESULT_END_OF_STREAM]) ∧
    (readN (tsparserCreate (List.replicate 189 71)) TYPE_VIDEO
      2).2.inputStreamFinished = true ∧
    (readN (tsparserCreate (List.replicate 189 71)) TYPE_VIDEO
      2).2.packetsConsumed = 0 ∧
    (readN (tsparserCreate (List.replicate 189 71)) TYPE_VIDEO 2).2.log
      = [] := by
  refine ⟨by decide, by decide, by decide, by decide⟩

/-! ## Claim C9: continuation before unit start (null dereference) -/

/-- Claim C9 counterexample: a PES handler is created with
`currentSample = NULL` (`_mallocz`), and nothing stops the first packet
dispatched to it from being a continuation; `pes_handler_handle_payload`
then dereferences the NULL sample. -/
theorem c9_continuation_first_null_deref :
    (pesHandlerCreate TYPE_VIDEO).currentSample = none ∧
    (pesStep (pesHandlerCreate TYPE_VIDEO) (List.replicate 188 0) 4
      false).1.ub = [UB.nullSample] := by
  refine ⟨rfl, by decide⟩

/-! ## Claim C1: PTS decoding -/

/-- Byte-level mask identity for the top PTS byte (marker pattern 0x21). -/
theorem land_0e_of_top_byte (x : Nat) (hx : x < 8) :
    (0x21 + 2 * x) &&& 0x0e = 2 * x := by
  have h : ∀ v : Fin 8, (0x21 + 2 * v.val) &&& 0x0e = 2 * v.val := by decide
  exact h ⟨x, hx⟩

/-- Byte-level mask identity for the marker-carrying PTS bytes. -/
theorem land_fe_of_marker_byte (y : Nat) (hy : y < 128) :
    (1 + 2 * y) &&& 0xfe = 2 * y := by
  have h : ∀ v : Fin 128, (1 + 2 * v.val) &&& 0xfe = 2 * v.val := by decide
  exact h ⟨y, hy⟩

/-- The code's five-byte PTS extraction applied to bytes laid out by the
standard MPEG PES bit pattern for a 33-bit value `raw` yields `raw >> 1`:
every fragment lands one bit position short, and the lowest PTS bit is
shifted away entirely. -/
theorem ptsDecode_standard_layout (raw : Nat) (hraw : raw < 2 ^ 33) :
    ptsDecode (0x21 + 2 * (raw / 2 ^ 30)) (raw / 2 ^ 22 % 256)
      (1 + 2 * (raw / 2 ^ 15 % 128)) (raw / 2 ^ 7 % 256)
      (1 + 2 * (raw % 128)) = raw / 2 := by
  have hx : raw / 2 ^ 30 < 8 := by omega
  have hy : raw / 2 ^ 15 % 128 < 128 := Nat.mod_lt _ (by norm_num)
  have hz : raw % 128 < 128 := Nat.mod_lt _ (by norm_num)
  have hb : raw / 2 ^ 22 % 256 < 256 := Nat.mod_lt _ (by norm_num)
  have hc : raw / 2 ^ 7 % 256 < 256 := Nat.mod_lt _ (by norm_num)
  set x := raw / 2 ^ 30 with hxdef
  set b := raw / 2 ^ 22 % 256 with hbdef
  set y := raw / 2 ^ 15 % 128 with hydef
  set c := raw / 2 ^ 7 % 256 with hcdef
  set z := raw % 128 with hzdef
  unfold ptsDecode
  rw [land_0e_of_top_byte x hx, land_fe_of_marker_byte y hy,
    land_fe_of_marker_byte z hz]
  rw [Nat.shiftLeft_eq, Nat.shiftLeft_eq, Nat.shiftLeft_eq, Nat.shiftLeft_eq,
    Nat.shiftRight_eq_div_pow]
  have e1 : 2 * x * 2 ^ 28 = 2 ^ 29 * x := by ring
  have e2 : b * 2 ^ 21 < 2 ^ 29 := by omega
  have s1 : (2 ^ 29 * x) ||| (b * 2 ^ 21) = 2 ^ 29 * x + b * 2 ^ 21 :=
    (Nat.mul_add_lt_is_or e2 x).symm
  have e3 : 2 ^ 29 * x + b * 2 ^ 21 = 2 ^ 21 * (2 ^ 8 * x + b) := by ring
  have e4 : 2 * y * 2 ^ 13 < 2 ^ 21 := by omega
  have s2 : (2 ^ 21 * (2 ^ 8 * x + b)) ||| (2 * y * 2 ^ 13)
      = 2 ^ 21 * (2 ^ 8 * x + b) + 2 * y * 2 ^ 13 :=
    (Nat.mul_add_lt_is_or e4 _).symm
  have e5 : 2 ^ 21 * (2 ^ 8 * x + b) + 2 * y * 2 ^ 13
      = 2 ^ 14 * (2 ^ 15 * x + 2 ^ 7 * b + y) := by ring
  have e6 : c * 2 ^ 6 < 2 ^ 14 := by omega
  have s3 : (2 ^ 14 * (2 ^ 15 * x + 2 ^ 7 * b + y)) ||| (c * 2 ^ 6)
      = 2 ^ 14 * (2 ^ 15 * x + 2 ^ 7 * b + y) + c * 2 ^ 6 :=
    (Nat.mul_add_lt_is_or e6 _).symm
  have e7 : 2 ^ 14 * (2 ^ 15 * x + 2 ^ 7 * b + y) + c * 2 ^ 6
      = 2 ^ 6 * (2 ^ 23 * x + 2 ^ 15 * b + 2 ^ 8 * y + c) := by ring
  have e8 : 2 * z / 2 ^ 2 < 2 ^ 6 := by omega
  have s4 : (2 ^ 6 * (2 ^ 23 * x + 2 ^ 15 * b + 2 ^ 8 * y + c))
      ||| (2 * z / 2 ^ 2)
      = 2 ^ 6 * (2 ^ 23 * x + 2 ^ 15 * b + 2 ^ 8 * y + c) + 2 * z / 2 ^ 2 :=
    (Nat.mul_add_lt_is_or e8 _).symm
  rw [e1, s1, e3, s2, e5, s3, e7, s4]
  have hfin : 2 ^ 6 * (2 ^ 23 * x + 2 ^ 15 * b + 2 ^ 8 * y + c) + 2 * z / 2 ^ 2
      = raw / 2 := by
    rw [hxdef, hbdef, hydef, hcdef, hzdef]
    omega
  exact hfin

/-- Claim C1 counterexample: the boundary value raw PTS = 0 (bytes
0x21 00 01 00 01 in the standard layout).  The code stores
`timeUs = -10000000` (its `pts * 1000 / 45` on the halved PTS, minus the
hard-coded 10-second offset at the line marked `XXX: remove`), not
`raw * 1000 / 45 = 0` as the claim states. -/
theorem c1_pts_zero_counterexample :
    ((pesStep (pesHandlerCreate TYPE_VIDEO)
        ([0x47, 0x40, 0x41, 0x10, 0, 0, 1, 0xe0, 0, 0, 0, 0x80, 5,
          0x21, 0, 1, 0, 1] ++ List.replicate 170 0)
        4 true).1.currentSample.map Sample.timeUs) = some (-10000000) ∧
    (-10000000 : Int) ≠ (0 : Nat) * 1000 / 45 := by
  refine ⟨rfl, by decide⟩

/-- Claim C1 (amended): for a unit-start PES header whose flags have bit 0x80
set and whose 5 PTS bytes encode the 33-bit value `raw` in the standard MPEG
layout, the stored timestamp is `(raw >> 1) * 1000 / 45 - 10000000`
microseconds: the extraction yields the halved PTS (compensated by dividing
by 45 instead of 90), and a hard-coded 10-second offset (the `XXX: remove`
line) is subtracted.  In particular it is `-10000000` at raw = 0 and
`(2^32 - 1) * 1000 / 45 - 10000000` at raw = 2^33 - 1, not `raw * 1000 / 45`. -/
theorem c1_pts_time_us (h : PESH) (packet : List Nat) (offset : Nat)
    (raw : Nat) (hraw : raw < 2 ^ 33)
    (hflags : pesFlags packet offset &&& 0x80 = 0x80)
    (hb0 : packet.getD (offset + 9) 0 = 0x21 + 2 * (raw / 2 ^ 30))
    (hb1 : packet.getD (offset + 10) 0 = raw / 2 ^ 22 % 256)
    (hb2 : packet.getD (offset + 11) 0 = 1 + 2 * (raw / 2 ^ 15 % 128))
    (hb3 : packet.getD (offset + 12) 0 = raw / 2 ^ 7 % 256)
    (hb4 : packet.getD (offset + 13) 0 = 1 + 2 * (raw % 128)) :
    ((pesStep h packet offset true).1.currentSample.map Sample.timeUs)
      = some ((raw / 2 * 1000 / 45 : Nat) - 10000000 : Int) := by
  have hpts : pesPts packet offset = raw / 2 := by
    unfold pesPts
    rw [if_pos hflags, hb0, hb1, hb2, hb3, hb4]
    exact ptsDecode_standard_layout raw hraw
  have htime : pesUnitStartTimeUs packet offset
      = ((raw / 2 * 1000 / 45 : Nat) - 10000000 : Int) := by
    unfold pesUnitStartTimeUs
    rw [hpts]
    norm_num
  rw [← htime]
  have hstep : pesStep h packet offset true = pesUnitStart h packet offset :=
    rfl
  rw [hstep]
  unfold pesUnitStart
  dsimp only
  by_cases ho : 188 < offset + 9 + packet.getD (offset + 8) 0
  · rw [if_pos ho]; rfl
  · rw [if_neg ho]; rfl

/-- `pes_handler_handle_payload` with `unit_start` dispatches to the
unit-start branch. -/
theorem pesStep_true (h : PESH) (p : List Nat) (o : Nat) :
    pesStep h p o true = pesUnitStart h p o := rfl

/-- `pes_handler_handle_payload` without `unit_start` dispatches to the
continuation branch. -/
theorem pesStep_false (h : PESH) (p : List Nat) (o : Nat) :
    pesStep h p o false = pesCont h p o := rfl

theorem pesRun_nil (h : PESH) : pesRun h [] = h := rfl

theorem pesRun_cons (h : PESH) (c : List Nat × Nat × Bool)
    (cs : List (List Nat × Nat × Bool)) :
    pesRun h (c :: cs) = pesRun (pesStep h c.1 c.2.1 c.2.2).1 cs := rfl

/-- The unit-start branch always installs a fresh in-progress sample, and
adds at most an `oobCopy` event (never `nullSample`). -/
theorem pesUnitStart_some (h : PESH) (p : List Nat) (o : Nat) :
    (pesUnitStart h p o).1.currentSample.isSome = true ∧
    (∀ u ∈ (pesUnitStart h p o).1.ub, u ∈ h.ub ∨ u = UB.oobCopy) := by
  unfold pesUnitStart
  dsimp only
  by_cases ho : 188 < o + 9 + p.getD (o + 8) 0
  · rw [if_pos ho]
    refine ⟨rfl, ?_⟩
    intro u hu
    rcases List.mem_append.1 hu with h1 | h2
    · exact Or.inl h1
    · simp only [List.mem_singleton] at h2; exact Or.inr h2
  · rw [if_neg ho]
    exact ⟨rfl, fun u hu => Or.inl hu⟩

/-- The continuation branch keeps an existing in-progress sample and adds at
most an `oobCopy` event when one is present. -/
theorem pesCont_some (h : PESH) (p : List Nat) (o : Nat)
    (hs : h.currentSample.isSome = true) :
    (pesCont h p o).1.currentSample.isSome = true ∧
    (∀ u ∈ (pesCont h p o).1.ub, u ∈ h.ub ∨ u = UB.oobCopy) := by
  obtain ⟨s, hseq⟩ := Option.isSome_iff_exists.1 hs
  unfold pesCont
  rw [hseq]
  dsimp only
  by_cases ho : 188 < o
  · rw [if_pos ho]
    refine ⟨rfl, ?_⟩
    intro u hu
    rcases List.mem_append.1 hu with h1 | h2
    · exact Or.inl h1
    · simp only [List.mem_singleton] at h2; exact Or.inr h2
  · rw [if_neg ho]
    exact ⟨rfl, fun u hu => Or.inl hu⟩

/-- Once a PES handler holds an in-progress sample, no later dispatch can
reach the NULL-sample path. -/
theorem pesRun_no_null (calls : List (List Nat × Nat × Bool)) (h : PESH)
    (hs : h.currentSample.isSome = true) (hub : UB.nullSample ∉ h.ub) :
    UB.nullSample ∉ (pesRun h calls).ub ∧
    (pesRun h calls).currentSample.isSome = true := by
  induction calls generalizing h with
  | nil => exact ⟨hub, hs⟩
  | cons c cs ih =>
      rw [pesRun_cons]
      have hstep : (pesStep h c.1 c.2.1 c.2.2).1.currentSample.isSome = true ∧
          (∀ u ∈ (pesStep h c.1 c.2.1 c.2.2).1.ub,
            u ∈ h.ub ∨ u = UB.oobCopy) := by
        cases hus : c.2.2 with
        | true => rw [pesStep_true]; exact pesUnitStart_some h c.1 c.2.1
        | false => rw [pesStep_false]; exact pesCont_some h c.1 c.2.1 hs
      refine ih _ hstep.1 ?_
      intro hmem
      rcases hstep.2 _ hmem with h1 | h2
      · exact hub h1
      · exact UB.noConfusion h2

/-- Claim C9 (amended): on any dispatch sequence whose first packet on the
PID is a unit-start packet (a continuation never precedes the first unit
start), the append path always finds a non-null Access Unit: the NULL
dereference is never reached. -/
theorem c9_unit_start_first_no_null_deref (ty o0 : Nat) (p0 : List Nat)
    (rest : List (List Nat × Nat × Bool)) :
    UB.nullSample ∉ (pesRun (pesHandlerCreate ty) ((p0, o0, true) :: rest)).ub := by
  rw [pesRun_cons]
  have h0 := pesUnitStart_some (pesHandlerCreate ty) p0 o0
  have hub : UB.nullSample ∉ (pesStep (pesHandlerCreate ty) p0 o0 true).1.ub := by
    rw [pesStep_true]
    intro hmem
    rcases h0.2 _ hmem with h1 | h2
    · simp [pesHandlerCreate] at h1
    · exact UB.noConfusion h2
  have hsome : (pesStep (pesHandlerCreate ty) p0 o0 true).1.currentSample.isSome
      = true := by rw [pesStep_true]; exact h0.1
  exact (pesRun_no_null rest _ hsome hub).1

/-! ## List getD/set helpers -/

theorem getD_set_self_h (l : List Handler) (i : Nat) (a d : Handler)
    (h : i < l.length) : (l.set i a).getD i d = a := by
  rw [List.getD_eq_getElem?_getD, List.getElem?_set_self h]
  rfl

/-! ## Shared PES continuation write lemma -/

/-- Splicing `src` into `dst` at `pos` keeps the length and makes the first
`pos + src.length` bytes be the old prefix followed by `src`. -/
theorem writeBytes_spec (dst : List Nat) (pos : Nat) (src : List Nat)
    (hpos : pos + src.length ≤ dst.length) :
    (writeBytes dst pos src).take (pos + src.length) = dst.take pos ++ src ∧
    (writeBytes dst pos src).length = dst.length := by
  have hTlen : (dst.take pos).length = pos := by
    rw [List.length_take]
    omega
  constructor
  · unfold writeBytes
    rw [List.append_assoc, List.take_append_eq_append_take,
      List.take_of_length_le (by omega), hTlen]
    congr 1
    rw [List.take_append_eq_append_take,
      List.take_of_length_le (show src.length ≤ pos + src.length - pos by omega)]
    have : pos + src.length - pos - src.length = 0 := by omega
    rw [this, List.take_zero, List.append_nil]
  · unfold writeBytes
    rw [List.length_append, List.length_append, hTlen, List.length_drop]
    omega

/-- The continuation branch of `pes_handler_handle_payload` appends the
packet's payload bytes to the in-progress sample, growing the buffer first
if the append could overflow it. -/
theorem pesCont_append (h : PESH) (s : Sample) (packet : List Nat)
    (offset : Nat) (hs : h.currentSample = some s)
    (hlen : s.data.length = s.maxSize) (hpos : s.position ≤ s.maxSize)
    (hp : packet.length = 188) (ho : offset ≤ 188) :
    ∃ s', pesCont h packet offset = ({ h with currentSample := some s' }, none) ∧
      s'.data.take s'.position = s.data.take s.position ++ packet.drop offset ∧
      s'.position = s.position + (188 - offset) ∧
      s'.data.length = s'.maxSize ∧ s'.position ≤ s'.maxSize ∧
      s'.timeUs = s.timeUs ∧
      s'.maxSize = (if s.maxSize < s.position + 188 then 2 * (s.position + 188)
        else s.maxSize) := by
  have hcl : (packet.drop offset).length = 188 - offset := by
    rw [List.length_drop, hp]
  -- the possibly-resized sample
  have key : ∀ s1 : Sample, s1.data.length = s1.maxSize →
      s1.position + 188 ≤ s1.maxSize → s1.position = s.position →
      s1.data.take s1.position = s.data.take s.position →
      s1.timeUs = s.timeUs →
      ∃ s' : Sample,
        ({ s1 with
          data := writeBytes s1.data s1.position (packet.drop offset)
          position := s1.position + (188 - offset) } : Sample) = s' ∧
        s'.data.take s'.position = s.data.take s.position ++ packet.drop offset ∧
        s'.position = s.position + (188 - offset) ∧
        s'.data.length = s'.maxSize ∧ s'.position ≤ s'.maxSize ∧
        s'.timeUs = s.timeUs ∧ s'.maxSize = s1.maxSize := by
    intro s1 h1len h1cap h1pos h1take h1time
    have hws := writeBytes_spec s1.data s1.position (packet.drop offset)
      (by rw [hcl, h1len]; omega)
    refine ⟨_, rfl, ?_, ?_, ?_, ?_, h1time, rfl⟩
    · show (writeBytes s1.data s1.position (packet.drop offset)).take
        (s1.position + (188 - offset)) = s.data.take s.position ++ packet.drop offset
      rw [← hcl, hws.1, h1take]
    · show s1.position + (188 - offset) = s.position + (188 - offset)
      rw [h1pos]
    · show (writeBytes s1.data s1.position (packet.drop offset)).length = s1.maxSize
      rw [hws.2, h1len]
    · show s1.position + (188 - offset) ≤ s1.maxSize
      omega
  unfold pesCont
  rw [hs]
  dsimp only
  by_cases hrs : s.maxSize < s.position + 188
  · rw [if_pos hrs, if_neg (by omega : ¬188 < offset)]
    have hfacts := key (sampleResize s (2 * (s.position + 188)))
      (by
        unfold sampleResize
        dsimp only
        rw [List.length_append, List.length_replicate, hlen]
        omega)
      (by unfold sampleResize; dsimp only; omega)
      rfl
      (by
        unfold sampleResize
        dsimp only
        rw [List.take_append_eq_append_take]
        have h0 : s.position - s.data.length = 0 := by omega
        rw [h0, List.take_zero, List.append_nil])
      rfl
    obtain ⟨s', heq, p1, p2, p3, p4, p5, p6⟩ := hfacts
    refine ⟨s', ?_, p1, p2, p3, p4, p5, ?_⟩
    · rw [heq]
    · rw [p6, if_pos hrs]
      rfl
  · rw [if_neg hrs, if_neg (by omega : ¬188 < offset)]
    have hfacts := key s hlen (by omega) rfl rfl rfl
    obtain ⟨s', heq, p1, p2, p3, p4, p5, p6⟩ := hfacts
    refine ⟨s', ?_, p1, p2, p3, p4, p5, ?_⟩
    · rw [heq]
    · rw [p6, if_neg hrs]
/-- A unit-start call with an in-range payload offset installs a fresh
sample holding exactly the packet's payload bytes after the PES header. -/
theorem pesUnitStart_install (h : PESH) (p0 : List Nat) (o0 : Nat)
    (hp : p0.length = 188) (ho : pesPayloadStart p0 o0 ≤ 188) :
    ∃ s0, (pesUnitStart h p0 o0).1.currentSample = some s0 /\
      s0.data.take s0.position = p0.drop (pesPayloadStart p0 o0) /\
      s0.position = 188 - pesPayloadStart p0 o0 /\
      s0.data.length = s0.maxSize /\ s0.position ≤ s0.maxSize := by
  have hdl : (p0.drop (pesPayloadStart p0 o0)).length
      = 188 - pesPayloadStart p0 o0 := by
    rw [List.length_drop, hp]
  have hws := writeBytes_spec sampleCreate.data 0 (p0.drop (pesPayloadStart p0 o0))
    (by
      show 0 + (p0.drop (pesPayloadStart p0 o0)).length ≤
        (List.replicate (64 * 1024) 0).length
      rw [hdl, List.length_replicate]
      omega)
  unfold pesUnitStart
  dsimp only
  rw [if_neg (show ¬188 < o0 + 9 + p0.getD (o0 + 8) 0 from by
    unfold pesPayloadStart at ho; omega)]
  refine ⟨_, rfl, ?_, rfl, ?_, ?_⟩
  · show (writeBytes sampleCreate.data 0 (p0.drop (o0 + 9 + p0.getD (o0 + 8) 0))).take
      (188 - (o0 + 9 + p0.getD (o0 + 8) 0)) = p0.drop (pesPayloadStart p0 o0)
    have e : (188 - (o0 + 9 + p0.getD (o0 + 8) 0))
        = 0 + (p0.drop (pesPayloadStart p0 o0)).length := by
      rw [hdl]; unfold pesPayloadStart; omega
    rw [e]
    show (writeBytes sampleCreate.data 0 (p0.drop (pesPayloadStart p0 o0))).take
      (0 + (p0.drop (pesPayloadStart p0 o0)).length) = p0.drop (pesPayloadStart p0 o0)
    rw [hws.1, List.take_zero, List.nil_append]
  · show (writeBytes sampleCreate.data 0 (p0.drop (pesPayloadStart p0 o0))).length
      = sampleCreate.maxSize
    rw [hws.2]
    show (List.replicate (64 * 1024) 0).length = (64 * 1024 : Nat)
    rw [List.length_replicate]
  · show 188 - (o0 + 9 + p0.getD (o0 + 8) 0) ≤ sampleCreate.maxSize
    show 188 - (o0 + 9 + p0.getD (o0 + 8) 0) ≤ 64 * 1024
    omega

/-- Folding continuation calls through a handler with an in-progress sample
appends, in order, each packet's payload bytes. -/
theorem pesRun_conts_append (conts : List (List Nat × Nat)) (h : PESH)
    (s : Sample) (hs : h.currentSample = some s)
    (hlen : s.data.length = s.maxSize) (hpos : s.position ≤ s.maxSize)
    (hconts : ∀ c ∈ conts, c.1.length = 188 /\ c.2 ≤ 188) :
    ∃ s', (pesRun h (conts.map (fun c => (c.1, c.2, false)))).currentSample
        = some s' /\
      s'.data.take s'.position
        = s.data.take s.position ++ (conts.map (fun c => c.1.drop c.2)).flatten /\
      s'.position = s.position + (conts.map (fun c => 188 - c.2)).sum /\
      s'.data.length = s'.maxSize /\ s'.position ≤ s'.maxSize := by
  induction conts generalizing h s with
  | nil =>
      refine ⟨s, hs, ?_, ?_, hlen, hpos⟩
      · simp
      · simp
  | cons c cs ih =>
      have hc := hconts c (List.mem_cons_self c cs)
      obtain ⟨s1, heq, p1, p2, p3, p4, _, _⟩ :=
        pesCont_append h s c.1 c.2 hs hlen hpos hc.1 hc.2
      rw [List.map_cons, pesRun_cons]
      dsimp only
      have hstep : (pesStep h c.1 c.2 false).1
          = { h with currentSample := some s1 } := by
        show (pesCont h c.1 c.2).1 = _
        rw [heq]
      rw [hstep]
      obtain ⟨s', q1, q2, q3, q4, q5⟩ := ih { h with currentSample := some s1 }
        s1 rfl p3 p4 (fun c hc => hconts c (List.mem_cons_of_mem _ hc))
      refine ⟨s', q1, ?_, ?_, q4, q5⟩
      · rw [q2, p1, List.map_cons, List.flatten_cons, List.append_assoc]
      · rw [q3, p2, List.map_cons, List.sum_cons]
        omega

/-! ## Claim C3: multi-packet PES reassembly -/

/-- Claim C3: a PES access unit delivered as one unit-start packet followed
by N-1 continuation packets on the same PID reassembles into one contiguous
buffer equal to the payload of the first packet (after its PES header)
followed by the continuation payloads in arrival order; the write position
always stays within the (grown-as-needed) buffer capacity. -/
theorem c3_pes_reassembly (ty o0 : Nat) (p0 : List Nat)
    (conts : List (List Nat × Nat)) (hp0 : p0.length = 188)
    (ho0 : pesPayloadStart p0 o0 ≤ 188)
    (hconts : ∀ c ∈ conts, c.1.length = 188 /\ c.2 ≤ 188) :
    ∃ s, (pesRun (pesHandlerCreate ty)
        ((p0, o0, true) :: conts.map (fun c => (c.1, c.2, false)))).currentSample
        = some s /\
      s.data.take s.position
        = p0.drop (pesPayloadStart p0 o0) ++
          (conts.map (fun c => c.1.drop c.2)).flatten /\
      s.position = (188 - pesPayloadStart p0 o0) +
        (conts.map (fun c => 188 - c.2)).sum /\
      s.position ≤ s.maxSize := by
  obtain ⟨s0, h0, i1, i2, i3, i4⟩ :=
    pesUnitStart_install (pesHandlerCreate ty) p0 o0 hp0 ho0
  rw [pesRun_cons]
  have hstep : (pesStep (pesHandlerCreate ty) p0 o0 true).1.currentSample
      = some s0 := by rw [pesStep_true]; exact h0
  obtain ⟨s', q1, q2, q3, q4, q5⟩ := pesRun_conts_append conts
    (pesStep (pesHandlerCreate ty) p0 o0 true).1 s0 hstep i3 i4 hconts
  refine ⟨s', q1, ?_, ?_, q5⟩
  · rw [q2, i1]
  · rw [q3, i2]

/-- Witness for `c3_pes_reassembly`: a unit-start packet with empty header
data plus one continuation packet; 175 + 184 payload bytes reassembled. -/
theorem c3_pes_reassembly_witness :
    ∃ s, (pesRun (pesHandlerCreate TYPE_VIDEO)
        (([0x47, 0x40, 0x41, 0x10, 0, 0, 1, 0xe0, 0, 0, 0, 0, 0] ++
            List.replicate 175 0xAA, 4, true) ::
          ([(List.replicate 188 0xBB, (4 : Nat))].map
            (fun c => (c.1, c.2, false))))).currentSample = some s /\
      s.data.take s.position
        = ([0x47, 0x40, 0x41, 0x10, 0, 0, 1, 0xe0, 0, 0, 0, 0, 0] ++
            List.replicate 175 0xAA).drop
            (pesPayloadStart ([0x47, 0x40, 0x41, 0x10, 0, 0, 1, 0xe0, 0, 0, 0,
              0, 0] ++ List.replicate 175 0xAA) 4) ++
          ([(List.replicate 188 0xBB, (4 : Nat))].map
            (fun c => c.1.drop c.2)).flatten /\
      s.position = (188 - pesPayloadStart ([0x47, 0x40, 0x41, 0x10, 0, 0, 1,
          0xe0, 0, 0, 0, 0, 0] ++ List.replicate 175 0xAA) 4) +
        (([(List.replicate 188 0xBB, (4 : Nat))]).map
          (fun c => 188 - c.2)).sum /\
      s.position ≤ s.maxSize := by
  exact c3_pes_reassembly TYPE_VIDEO 4
    ([0x47, 0x40, 0x41, 0x10, 0, 0, 1, 0xe0, 0, 0, 0, 0, 0] ++
      List.replicate 175 0xAA)
    [(List.replicate 188 0xBB, (4 : Nat))]
    (by simp) (by decide)
    (by intro c hc; simp at hc; rw [hc]; exact ⟨by simp, by norm_num⟩)

/-- Witness for `c1_pts_time_us`: raw PTS 90000 (one second) in a concrete
packet; the stored time is 45000 * 1000 / 45 - 10000000 = -9000000 µs. -/
theorem c1_pts_time_us_witness :
    ((pesStep (pesHandlerCreate TYPE_VIDEO)
        ([0x47, 0x40, 0x41, 0x10, 0, 0, 1, 0xe0, 0, 0, 0, 0x80, 5,
          0x21, 0, 5, 0xbf, 0x21] ++ List.replicate 170 0)
        4 true).1.currentSample.map Sample.timeUs) = some (-9000000) := by
  have h := c1_pts_time_us (pesHandlerCreate TYPE_VIDEO)
    ([0x47, 0x40, 0x41, 0x10, 0, 0, 1, 0xe0, 0, 0, 0, 0x80, 5,
      0x21, 0, 5, 0xbf, 0x21] ++ List.replicate 170 0)
    4 90000 (by norm_num) (by decide) (by decide) (by decide) (by decide)
    (by decide) (by decide)
  rw [h]
  decide


/-! ## Claim C8: continuity-counter gap is non-fatal -/

/-- Claim C8: when a packet's continuity counter differs from the handler's
previous counter plus 1 mod 16, the gap is logged (a `ccError` diagnostic),
the handler's stored counter is overwritten with the packet's counter, and
the packet is nevertheless dispatched unchanged; in particular a continuation
packet's payload bytes are still appended unmodified to the in-progress PES
buffer. -/
theorem c8_cc_gap_non_fatal (t : TSP) (i : Nat)
    (hfind : t.handlers.findIdx? (fun h => h.pid = pidOf (packetAt t)) = some i)
    (hgap : ((t.handlers.getD i dummyHandler).cc + 1) &&& 0xf
      ≠ ccOf (packetAt t)) :
    consumePacket t = (PARSE_ONE_PACKET_AGAIN,
      dispatchPayload
        { t with dataPosition := t.dataPosition + 188
                 packetsConsumed := t.packetsConsumed + 1
                 log := t.log ++ [Diag.ccError (t.handlers.getD i dummyHandler).cc
                   (ccOf (packetAt t))]
                 handlers := t.handlers.set i
                   { t.handlers.getD i dummyHandler with cc := ccOf (packetAt t) } }
        i (packetAt t) (payloadOffsetOf (packetAt t)) (unitStartOf (packetAt t))) ∧
    (∀ ph s, (t.handlers.getD i dummyHandler).body = HBody.pes ph →
      unitStartOf (packetAt t) = false → ph.currentSample = some s →
      s.data.length = s.maxSize → s.position ≤ s.maxSize →
      (packetAt t).length = 188 → payloadOffsetOf (packetAt t) ≤ 188 →
      ∃ s', ((consumePacket t).2.handlers.getD i dummyHandler).body
          = HBody.pes { ph with currentSample := some s' } ∧
        s'.data.take s'.position = s.data.take s.position
          ++ (packetAt t).drop (payloadOffsetOf (packetAt t)) ∧
        s'.position = s.position + (188 - payloadOffsetOf (packetAt t))) := by
  have hilt : i < t.handlers.length :=
    (List.findIdx?_eq_some_iff_findIdx_eq.1 hfind).1
  have hmain : consumePacket t = (PARSE_ONE_PACKET_AGAIN,
      dispatchPayload
        { t with dataPosition := t.dataPosition + 188
                 packetsConsumed := t.packetsConsumed + 1
                 log := t.log ++ [Diag.ccError (t.handlers.getD i dummyHandler).cc
                   (ccOf (packetAt t))]
                 handlers := t.handlers.set i
                   { t.handlers.getD i dummyHandler with cc := ccOf (packetAt t) } }
        i (packetAt t) (payloadOffsetOf (packetAt t)) (unitStartOf (packetAt t))) := by
    have hmark : markCC (bumpPacket t) i (packetAt t)
        = { t with dataPosition := t.dataPosition + 188
                   packetsConsumed := t.packetsConsumed + 1
                   log := t.log ++
                     [Diag.ccError (t.handlers.getD i dummyHandler).cc
                       (ccOf (packetAt t))]
                   handlers := t.handlers.set i
                     { t.handlers.getD i dummyHandler with
                       cc := ccOf (packetAt t) } } := by
      unfold markCC bumpPacket
      dsimp only
      rw [if_pos hgap]
    unfold consumePacket
    rw [hfind]
    dsimp only
    rw [hmark]
  refine ⟨hmain, ?_⟩
  intro ph s hbody hus hcur hslen hspos hplen hoff
  rw [hmain]
  dsimp only
  unfold dispatchPayload
  rw [getD_set_self_h _ _ _ _ hilt]
  dsimp only
  rw [hbody]
  dsimp only
  rw [hus, pesStep_false]
  obtain ⟨s', heq, p1, p2, _, _, _, _⟩ :=
    pesCont_append ph s (packetAt t) (payloadOffsetOf (packetAt t)) hcur hslen
      hspos hplen hoff
  rw [heq]
  dsimp only
  refine ⟨s', ?_, p1, p2⟩
  rw [getD_set_self_h]
  rw [List.length_set]
  exact hilt

/-- Witness for `c8_cc_gap_non_fatal`: a continuation packet with counter 7
arriving at a handler whose counter is 3 (expected 4) is still appended. -/
theorem c8_cc_gap_non_fatal_witness :
    ∃ s', ((consumePacket ccGapState).2.handlers.getD 0 dummyHandler).body
        = HBody.pes { ccGapPESH with currentSample := some s' } ∧
      s'.data.take s'.position = ccGapSample.data.take ccGapSample.position ++
        (packetAt ccGapState).drop (payloadOffsetOf (packetAt ccGapState)) ∧
      s'.position = ccGapSample.position +
        (188 - payloadOffsetOf (packetAt ccGapState)) := by
  have h := (c8_cc_gap_non_fatal ccGapState 0 (by decide) (by decide)).2
    ccGapPESH ccGapSample rfl (by decide) rfl (by decide) (by decide)
    (by decide) (by decide)
  exact h

/-! ## Claim C6: section accumulation bounds -/

theorem secIdle_spec (sh : SecH) (p : List Nat) (o : Nat)
    (hsl : sh.sectionLength = 0) :
    (secIdle sh p o).1.sectionLength = secDeclared p o ∧
    (secIdle sh p o).1.sectionWriteOffset = 0 ∧
    (secIdle sh p o).2 = o + 4 := by
  unfold secIdle secDeclared
  rw [if_pos hsl]
  exact ⟨rfl, rfl, rfl⟩

theorem secIdle_skip (sh : SecH) (p : List Nat) (o : Nat)
    (hsl : sh.sectionLength ≠ 0) : secIdle sh p o = (sh, o) := by
  unfold secIdle
  rw [if_neg hsl]

theorem secCopy_spec (sh : SecH) (p : List Nat) (o : Nat) (hoff : o ≤ 188)
    (hwo : sh.sectionWriteOffset ≤ sh.sectionLength) :
    (secCopy sh p o).2.2
      = min (188 - o) (sh.sectionLength - sh.sectionWriteOffset) ∧
    ((secCopy sh p o).2.1.isSome = true ↔
      sh.sectionWriteOffset + (secCopy sh p o).2.2 = sh.sectionLength) ∧
    ((secCopy sh p o).2.1.isSome = true → (secCopy sh p o).1.sectionLength = 0) ∧
    ((secCopy sh p o).1.sectionLength ≠ 0 →
      (secCopy sh p o).1.sectionWriteOffset ≤ (secCopy sh p o).1.sectionLength) := by
  have hamt : secCopyAmount sh o
      = min (188 - o) (sh.sectionLength - sh.sectionWriteOffset) := by
    unfold secCopyAmount
    split <;> omega
  have hamtle : sh.sectionWriteOffset + secCopyAmount sh o ≤ sh.sectionLength
      ∨ secCopyAmount sh o = 188 - o := by
    unfold secCopyAmount
    split
    · left; omega
    · right; rfl
  unfold secCopy
  rw [if_neg (by omega : ¬188 < o)]
  by_cases hfire : sh.sectionWriteOffset + secCopyAmount sh o = sh.sectionLength
  · rw [if_pos hfire]
    refine ⟨hamt, ?_, fun _ => rfl, ?_⟩
    · simp only [Option.isSome_some, true_iff]
      exact hfire
    · intro hc
      exact absurd rfl hc
  · rw [if_neg hfire]
    refine ⟨hamt, ?_, ?_, ?_⟩
    · simp only [Option.isSome_none, Bool.false_eq_true, false_iff]
      exact hfire
    · intro hc
      exact absurd hc (by simp)
    · intro _
      show sh.sectionWriteOffset + secCopyAmount sh o ≤ sh.sectionLength
      rw [hamt]
      omega

theorem secCopy_inv (sh : SecH) (p : List Nat) (o : Nat)
    (hwo : sh.sectionWriteOffset ≤ sh.sectionLength) :
    (secCopy sh p o).1.sectionLength ≠ 0 →
      (secCopy sh p o).1.sectionWriteOffset ≤ (secCopy sh p o).1.sectionLength := by
  by_cases ho : 188 < o
  · unfold secCopy
    rw [if_pos ho]
    exact fun _ => hwo
  · exact (secCopy_spec sh p o (by omega) hwo).2.2.2

/-- In Idle state a call is the header phase followed by the copy at
`offset + 4`. -/
theorem secStep_eq_idle (sh : SecH) (p : List Nat) (o : Nat)
    (hsl : sh.sectionLength = 0) :
    secStep sh p o = secCopy (secIdle sh p o).1 p (o + 4) := by
  show secCopy (secIdle sh p o).1 p (secIdle sh p o).2 = _
  rw [(secIdle_spec sh p o hsl).2.2]

/-- In Accumulating state a call is exactly the copy phase. -/
theorem secStep_eq_acc (sh : SecH) (p : List Nat) (o : Nat)
    (hsl : sh.sectionLength ≠ 0) :
    secStep sh p o = secCopy sh p o := by
  show secCopy (secIdle sh p o).1 p (secIdle sh p o).2 = _
  rw [secIdle_skip sh p o hsl]

/-- Reachability invariant of a section handler: while Accumulating, the
write offset never exceeds the declared section length. -/
theorem secStep_inv (sh : SecH) (p : List Nat) (o : Nat)
    (hwo : sh.sectionLength ≠ 0 →
      sh.sectionWriteOffset ≤ sh.sectionLength) :
    (secStep sh p o).1.sectionLength ≠ 0 →
      (secStep sh p o).1.sectionWriteOffset ≤ (secStep sh p o).1.sectionLength := by
  by_cases hsl : sh.sectionLength = 0
  · rw [secStep_eq_idle sh p o hsl]
    exact secCopy_inv _ p _ (by rw [(secIdle_spec sh p o hsl).2.1]; omega)
  · rw [secStep_eq_acc sh p o hsl]
    exact secCopy_inv sh p o (hwo hsl)

theorem secRun_cons (sh : SecH) (c : List Nat × Nat)
    (cs : List (List Nat × Nat)) :
    secRun sh (c :: cs) = secRun (secStep sh c.1 c.2).1 cs := rfl

theorem secRun_inv (tableID : Nat) (calls : List (List Nat × Nat)) :
    (secRun (secHandlerCreate tableID) calls).sectionLength ≠ 0 →
      (secRun (secHandlerCreate tableID) calls).sectionWriteOffset
        ≤ (secRun (secHandlerCreate tableID) calls).sectionLength := by
  suffices hgen : ∀ (sh : SecH), (sh.sectionLength ≠ 0 →
      sh.sectionWriteOffset ≤ sh.sectionLength) →
      (secRun sh calls).sectionLength ≠ 0 →
      (secRun sh calls).sectionWriteOffset ≤ (secRun sh calls).sectionLength by
    exact hgen _ (fun hc => absurd rfl hc)
  induction calls with
  | nil => exact fun sh h => h
  | cons c cs ih =>
      intro sh h
      rw [secRun_cons]
      exact ih _ (secStep_inv sh c.1 c.2 h)

/-- Claim C6: on every call to a section handler reachable from a fresh
handler, the write offset never exceeds the declared 12-bit section length;
each call copies exactly `min(188 - offset, sectionLength - writeOffset)`
bytes (offsets taken after the 4 header bytes in Idle state); the section
callback fires exactly when the write offset reaches the declared length;
and after firing `sectionLength` is reset to 0 (Idle).  Offsets are assumed
≤ 184, which every in-range dispatch of a PSI packet satisfies. -/
theorem c6_section_accumulation (tableID : Nat)
    (calls : List (List Nat × Nat)) (p : List Nat) (o : Nat) (ho : o ≤ 184) :
    ((secRun (secHandlerCreate tableID) calls).sectionLength ≠ 0 →
      (secRun (secHandlerCreate tableID) calls).sectionWriteOffset
        ≤ (secRun (secHandlerCreate tableID) calls).sectionLength) ∧
    (secStep (secRun (secHandlerCreate tableID) calls) p o).2.2
      = min (188 - (secEff (secRun (secHandlerCreate tableID) calls) p o).1)
          ((secEff (secRun (secHandlerCreate tableID) calls) p o).2.1
            - (secEff (secRun (secHandlerCreate tableID) calls) p o).2.2) ∧
    ((secStep (secRun (secHandlerCreate tableID) calls) p o).2.1.isSome = true ↔
      (secEff (secRun (secHandlerCreate tableID) calls) p o).2.2
        + (secStep (secRun (secHandlerCreate tableID) calls) p o).2.2
        = (secEff (secRun (secHandlerCreate tableID) calls) p o).2.1) ∧
    ((secStep (secRun (secHandlerCreate tableID) calls) p o).2.1.isSome = true →
      (secStep (secRun (secHandlerCreate tableID) calls) p o).1.sectionLength
        = 0) ∧
    ((secStep (secRun (secHandlerCreate tableID) calls) p o).1.sectionLength
        ≠ 0 →
      (secStep (secRun (secHandlerCreate tableID) calls) p o).1.sectionWriteOffset
        ≤ (secStep (secRun (secHandlerCreate tableID) calls) p o).1.sectionLength) := by
  have hinv := secRun_inv tableID calls
  set s := secRun (secHandlerCreate tableID) calls with hs
  by_cases hsl : s.sectionLength = 0
  · have hid := secIdle_spec s p o hsl
    have hcs := secCopy_spec (secIdle s p o).1 p (o + 4) (by omega)
      (by rw [hid.2.1]; exact Nat.zero_le _)
    rw [hid.1, hid.2.1] at hcs
    have heff : secEff s p o = (o + 4, secDeclared p o, 0) := by
      unfold secEff
      rw [if_pos hsl]
    rw [secStep_eq_idle s p o hsl, heff]
    refine ⟨hinv, ?_, ?_, hcs.2.2.1,
      secStep_eq_idle s p o hsl ▸ secStep_inv s p o hinv⟩
    · show (secCopy (secIdle s p o).1 p (o + 4)).2.2
        = min (188 - (o + 4)) (secDeclared p o - 0)
      exact hcs.1
    · show (secCopy (secIdle s p o).1 p (o + 4)).2.1.isSome = true ↔
        0 + (secCopy (secIdle s p o).1 p (o + 4)).2.2 = secDeclared p o
      exact hcs.2.1
  · have hcs := secCopy_spec s p o (by omega) (hinv hsl)
    have heff : secEff s p o = (o, s.sectionLength, s.sectionWriteOffset) := by
      unfold secEff
      rw [if_neg hsl]
    rw [secStep_eq_acc s p o hsl, heff]
    exact ⟨hinv, hcs.1, hcs.2.1, hcs.2.2.1,
      secStep_eq_acc s p o hsl ▸ secStep_inv s p o hinv⟩

/-- Witness for `c6_section_accumulation`: a fresh PAT handler receiving a
unit-start packet carrying a 13-byte section at offset 4. -/
theorem c6_section_accumulation_witness :
    ((secRun (secHandlerCreate 0) []).sectionLength ≠ 0 →
      (secRun (secHandlerCreate 0) []).sectionWriteOffset
        ≤ (secRun (secHandlerCreate 0) []).sectionLength) ∧
    (secStep (secRun (secHandlerCreate 0) [])
        ([0x47, 0x40, 0x00, 0x11, 0x00, 0x00, 0x00, 0x0D] ++
          List.replicate 180 0xFF) 4).2.2
      = min (188 - (secEff (secRun (secHandlerCreate 0) [])
            ([0x47, 0x40, 0x00, 0x11, 0x00, 0x00, 0x00, 0x0D] ++
              List.replicate 180 0xFF) 4).1)
          ((secEff (secRun (secHandlerCreate 0) [])
            ([0x47, 0x40, 0x00, 0x11, 0x00, 0x00, 0x00, 0x0D] ++
              List.replicate 180 0xFF) 4).2.1
            - (secEff (secRun (secHandlerCreate 0) [])
            ([0x47, 0x40, 0x00, 0x11, 0x00, 0x00, 0x00, 0x0D] ++
              List.replicate 180 0xFF) 4).2.2) := by
  have h := c6_section_accumulation 0 []
    ([0x47, 0x40, 0x00, 0x11, 0x00, 0x00, 0x00, 0x0D] ++
      List.replicate 180 0xFF) 4 (by omega)
  exact ⟨h.1, h.2.1⟩

/-! ## Claim C5: PMT registers first AAC and first H.264 only -/

theorem pmtWalk_zero (data : List Nat) (len i : Nat) (a v : Bool) :
    pmtWalk data len 0 i a v = [] := rfl

theorem pmtWalk_succ (data : List Nat) (len fuel i : Nat) (a v : Bool) :
    pmtWalk data len (fuel + 1) i a v
      = if i < len - 4 then
          if ¬a ∧ pmtStreamType data i = STREAM_TYPE_AAC_ADTS then
            (pmtStreamPID data i, TYPE_AUDIO) ::
              pmtWalk data len fuel (pmtNext data i) true v
          else if ¬v ∧ pmtStreamType data i = STREAM_TYPE_H264 then
            (pmtStreamPID data i, TYPE_VIDEO) ::
              pmtWalk data len fuel (pmtNext data i) a true
          else pmtWalk data len fuel (pmtNext data i) a v
        else [] := rfl

theorem pmtEntriesAux_zero (data : List Nat) (len i : Nat) :
    pmtEntriesAux data len 0 i = [] := rfl

theorem pmtEntriesAux_succ (data : List Nat) (len fuel i : Nat) :
    pmtEntriesAux data len (fuel + 1) i
      = if i < len - 4 then
          (pmtStreamType data i, pmtStreamPID data i) ::
            pmtEntriesAux data len fuel (pmtNext data i)
        else [] := rfl

/-- Audio registrations of the PMT entry walk: none once audio was already
found, otherwise exactly one at the first AAC-typed entry's PID. -/
theorem pmtWalk_filter_audio (data : List Nat) (len : Nat) :
    ∀ (fuel i : Nat) (a v : Bool),
    (pmtWalk data len fuel i a v).filter (fun e => e.2 == TYPE_AUDIO)
      = if a then [] else
          match (pmtEntriesAux data len fuel i).find?
              (fun e => e.1 == STREAM_TYPE_AAC_ADTS) with
          | some e => [(e.2, TYPE_AUDIO)]
          | none => [] := by
  intro fuel
  induction fuel with
  | zero =>
      intro i a v
      cases a <;> rfl
  | succ fuel ih =>
      intro i a v
      rw [pmtWalk_succ, pmtEntriesAux_succ]
      by_cases hi : i < len - 4
      · rw [if_pos hi, if_pos hi]
        by_cases ha : ¬a ∧ pmtStreamType data i = STREAM_TYPE_AAC_ADTS
        · rw [if_pos ha]
          have hae : a = false := by
            cases a
            · rfl
            · exact absurd rfl ha.1
          subst hae
          have hfind : List.find? (fun e => e.1 == STREAM_TYPE_AAC_ADTS)
              ((pmtStreamType data i, pmtStreamPID data i) ::
                pmtEntriesAux data len fuel (pmtNext data i))
              = some (pmtStreamType data i, pmtStreamPID data i) :=
            List.find?_cons_of_pos _ (by simp [ha.2])
          rw [List.filter_cons_of_pos (by simp [ TYPE_AUDIO]),
            ih (pmtNext data i) true v, hfind]
          simp
        · rw [if_neg ha]
          by_cases hv : ¬v ∧ pmtStreamType data i = STREAM_TYPE_H264
          · rw [if_pos hv]
            rw [List.filter_cons_of_neg (by simp [ TYPE_AUDIO, TYPE_VIDEO]),
              ih (pmtNext data i) a true]
            cases a with
            | true => rfl
            | false =>
                have hfind : List.find? (fun e => e.1 == STREAM_TYPE_AAC_ADTS)
                    ((pmtStreamType data i, pmtStreamPID data i) ::
                      pmtEntriesAux data len fuel (pmtNext data i))
                    = List.find? (fun e => e.1 == STREAM_TYPE_AAC_ADTS)
                        (pmtEntriesAux data len fuel (pmtNext data i)) :=
                  List.find?_cons_of_neg _
                    (by simp [hv.2, STREAM_TYPE_H264, STREAM_TYPE_AAC_ADTS])
                rw [hfind]
          · rw [if_neg hv]
            rw [ih (pmtNext data i) a v]
            cases a with
            | true => rfl
            | false =>
                have htne : pmtStreamType data i ≠ STREAM_TYPE_AAC_ADTS := by
                  intro hc
                  exact ha ⟨fun hc2 => Bool.noConfusion hc2, hc⟩
                have hfind : List.find? (fun e => e.1 == STREAM_TYPE_AAC_ADTS)
                    ((pmtStreamType data i, pmtStreamPID data i) ::
                      pmtEntriesAux data len fuel (pmtNext data i))
                    = List.find? (fun e => e.1 == STREAM_TYPE_AAC_ADTS)
                        (pmtEntriesAux data len fuel (pmtNext data i)) :=
                  List.find?_cons_of_neg _ (by simp [htne])
                rw [hfind]
      · rw [if_neg hi, if_neg hi]
        cases a <;> rfl

/-- Video registrations of the PMT entry walk, mirroring
`pmtWalk_filter_audio`. -/
theorem pmtWalk_filter_video (data : List Nat) (len : Nat) :
    ∀ (fuel i : Nat) (a v : Bool),
    (pmtWalk data len fuel i a v).filter (fun e => e.2 == TYPE_VIDEO)
      = if v then [] else
          match (pmtEntriesAux data len fuel i).find?
              (fun e => e.1 == STREAM_TYPE_H264) with
          | some e => [(e.2, TYPE_VIDEO)]
          | none => [] := by
  intro fuel
  induction fuel with
  | zero =>
      intro i a v
      cases v <;> rfl
  | succ fuel ih =>
      intro i a v
      rw [pmtWalk_succ, pmtEntriesAux_succ]
      by_cases hi : i < len - 4
      · rw [if_pos hi, if_pos hi]
        by_cases ha : ¬a ∧ pmtStreamType data i = STREAM_TYPE_AAC_ADTS
        · rw [if_pos ha]
          rw [List.filter_cons_of_neg (by simp [ TYPE_AUDIO, TYPE_VIDEO]),
            ih (pmtNext data i) true v]
          cases v with
          | true => rfl
          | false =>
              have hfind : List.find? (fun e => e.1 == STREAM_TYPE_H264)
                  ((pmtStreamType data i, pmtStreamPID data i) ::
                    pmtEntriesAux data len fuel (pmtNext data i))
                  = List.find? (fun e => e.1 == STREAM_TYPE_H264)
                      (pmtEntriesAux data len fuel (pmtNext data i)) :=
                List.find?_cons_of_neg _
                  (by simp [ha.2, STREAM_TYPE_H264, STREAM_TYPE_AAC_ADTS])
              rw [hfind]
        · rw [if_neg ha]
          by_cases hv : ¬v ∧ pmtStreamType data i = STREAM_TYPE_H264
          · rw [if_pos hv]
            have hve : v = false := by
              cases v
              · rfl
              · exact absurd rfl hv.1
            subst hve
            have hfind : List.find? (fun e => e.1 == STREAM_TYPE_H264)
                ((pmtStreamType data i, pmtStreamPID data i) ::
                  pmtEntriesAux data len fuel (pmtNext data i))
                = some (pmtStreamType data i, pmtStreamPID data i) :=
              List.find?_cons_of_pos _ (by simp [hv.2])
            rw [List.filter_cons_of_pos (by simp [ TYPE_VIDEO]),
              ih (pmtNext data i) a true, hfind]
            simp
          · rw [if_neg hv]
            rw [ih (pmtNext data i) a v]
            cases v with
            | true => rfl
            | false =>
                have htne : pmtStreamType data i ≠ STREAM_TYPE_H264 := by
                  intro hc
                  exact hv ⟨fun hc2 => Bool.noConfusion hc2, hc⟩
                have hfind : List.find? (fun e => e.1 == STREAM_TYPE_H264)
                    ((pmtStreamType data i, pmtStreamPID data i) ::
                      pmtEntriesAux data len fuel (pmtNext data i))
                    = List.find? (fun e => e.1 == STREAM_TYPE_H264)
                        (pmtEntriesAux data len fuel (pmtNext data i)) :=
                  List.find?_cons_of_neg _ (by simp [htne])
                rw [hfind]
      · rw [if_neg hi, if_neg hi]
        cases v <;> rfl

/-- Claim C5: for every completed PMT section, the registrations contain
exactly one Audio PES handler, at the PID of the first stream entry with
stream_type 0x0F, and exactly one Video PES handler, at the PID of the first
entry with stream_type 0x1B (none when no such entry exists); every other
entry registers nothing.  Moreover in the pipeline a completing PMT section
replaces the PMT handler by exactly those PES registrations (the PMT handler
unregisters itself). -/
theorem c5_pmt_first_streams (data : List Nat) (len : Nat) :
    ((pmtRegs data len).filter (fun e => e.2 == TYPE_AUDIO)
      = match (pmtEntries data len).find?
            (fun e => e.1 == STREAM_TYPE_AAC_ADTS) with
        | some e => [(e.2, TYPE_AUDIO)]
        | none => []) ∧
    ((pmtRegs data len).filter (fun e => e.2 == TYPE_VIDEO)
      = match (pmtEntries data len).find?
            (fun e => e.1 == STREAM_TYPE_H264) with
        | some e => [(e.2, TYPE_VIDEO)]
        | none => []) ∧
    (∀ (t : TSP) (i : Nat) (sh : SecH) (packet : List Nat) (offset : Nat)
        (sec : List Nat × Nat),
      (t.handlers.getD i dummyHandler).body = HBody.pmt sh →
      (secStep sh packet offset).2.1 = some sec →
      (dispatchPayload t i packet offset (unitStartOf packet)).handlers
        = ((pmtRegs sec.1 sec.2).map
            (fun e => pesHandlerCreateH e.1 e.2)).reverse ++
          t.handlers.eraseIdx i) := by
  refine ⟨?_, ?_, ?_⟩
  · unfold pmtRegs pmtEntries
    rw [pmtWalk_filter_audio data len len (pmtFirstEntryIdx data) false false,
      if_neg Bool.false_ne_true]
  · unfold pmtRegs pmtEntries
    rw [pmtWalk_filter_video data len len (pmtFirstEntryIdx data) false false,
      if_neg Bool.false_ne_true]
  · intro t i sh packet offset sec hbody hsec
    simp only [dispatchPayload, hbody, hsec]

/-- Witness for `c5_pmt_first_streams` (third conjunct has hypotheses): a
synthetic PMT with one AAC entry, one H.264 entry and a second AAC entry
registers one audio handler (PID 0x101) and one video handler (PID 0x102),
ignoring the duplicate AAC entry. -/
theorem c5_pmt_first_streams_witness :
    (pmtRegs ([0, 0, 0, 0, 0, 0, 0, 0, 0, 0x0F, 0x01, 0x01, 0, 0,
        0x1B, 0x01, 0x02, 0, 0, 0x0F, 0x01, 0x03, 0, 0, 0, 0, 0, 0] : List Nat)
      28).filter (fun e => e.2 == TYPE_AUDIO) = [(0x101, TYPE_AUDIO)] ∧
    (pmtRegs ([0, 0, 0, 0, 0, 0, 0, 0, 0, 0x0F, 0x01, 0x01, 0, 0,
        0x1B, 0x01, 0x02, 0, 0, 0x0F, 0x01, 0x03, 0, 0, 0, 0, 0, 0] : List Nat)
      28).filter (fun e => e.2 == TYPE_VIDEO) = [(0x102, TYPE_VIDEO)] := by
  have h := c5_pmt_first_streams
    ([0, 0, 0, 0, 0, 0, 0, 0, 0, 0x0F, 0x01, 0x01, 0, 0,
      0x1B, 0x01, 0x02, 0, 0, 0x0F, 0x01, 0x03, 0, 0, 0, 0, 0, 0] : List Nat)
    28
  refine ⟨?_, ?_⟩
  · rw [h.1]
    decide
  · rw [h.2.1]
    decide

/-! ## Claim C7 support: queue extension and preservation lemmas -/

theorem QExt_refl (t : TSP) : QExt t t :=
  ⟨[], [], by simp, by simp, by simp, by simp, rfl, rfl⟩

theorem QExt_trans {t t' t'' : TSP} (h1 : QExt t t') (h2 : QExt t' t'') :
    QExt t t'' := by
  obtain ⟨a0, a1, e1, e2, e3, e4, e5, e6⟩ := h1
  obtain ⟨b0, b1, f1, f2, f3, f4, f5, f6⟩ := h2
  exact ⟨a0 ++ b0, a1 ++ b1, by rw [f1, e1, List.append_assoc],
    by rw [f2, e2, List.append_assoc], by rw [f3, e3, List.append_assoc],
    by rw [f4, e4, List.append_assoc], by rw [f5, e5], by rw [f6, e6]⟩

theorem QExtB_QExt {t t' : TSP} {n : Nat} (h : QExtB t t' n) : QExt t t' := by
  obtain ⟨a0, a1, e1, e2, e3, e4, e5, e6, _⟩ := h
  exact ⟨a0, a1, e1, e2, e3, e4, e5, e6⟩

theorem CoreEq_refl (t : TSP) : CoreEq t t := ⟨rfl, rfl, rfl, rfl, rfl, rfl⟩

theorem CoreEq_trans {t t' t'' : TSP} (h1 : CoreEq t t') (h2 : CoreEq t' t'') :
    CoreEq t t'' := by
  obtain ⟨e1, e2, e3, e4, e5, e6⟩ := h1
  obtain ⟨f1, f2, f3, f4, f5, f6⟩ := h2
  exact ⟨f1.trans e1, f2.trans e2, f3.trans e3, f4.trans e4, f5.trans e5,
    f6.trans e6⟩

theorem enqueueSample_spec (t : TSP) (ty : Nat) (s : Sample) :
    CoreEq t (enqueueSample t ty s) ∧ QExtB t (enqueueSample t ty s) 1 ∧
    (enqueueSample t ty s).handlers = t.handlers ∧
    (enqueueSample t ty s).log = t.log := by
  unfold enqueueSample
  by_cases h : ty = 0
  · rw [if_pos h]
    exact ⟨⟨rfl, rfl, rfl, rfl, rfl, rfl⟩,
      ⟨[s], [], rfl, rfl, by simp, by simp, rfl, rfl, by simp⟩, rfl, rfl⟩
  · rw [if_neg h]
    exact ⟨⟨rfl, rfl, rfl, rfl, rfl, rfl⟩,
      ⟨[], [s], by simp, by simp, rfl, rfl, rfl, rfl, by simp⟩, rfl, rfl⟩

theorem flushList_flushed : ∀ hs : List Handler, flushedH (flushList hs).1 := by
  intro hs
  induction hs with
  | nil => intro g hmem ph hb; cases hmem
  | cons h rest ih =>
      unfold flushList
      rcases hb : h.body with sh | sh | ph
      · dsimp only
        intro g hmem ph' hb'
        rcases List.mem_cons.1 hmem with he | hm
        · subst he; rw [hb] at hb'; cases hb'
        · exact ih g hm ph' hb'
      · dsimp only
        intro g hmem ph' hb'
        rcases List.mem_cons.1 hmem with he | hm
        · subst he; rw [hb] at hb'; cases hb'
        · exact ih g hm ph' hb'
      · dsimp only
        rcases hcur : ph.currentSample with _ | s
        · dsimp only
          intro g hmem ph' hb'
          rcases List.mem_cons.1 hmem with he | hm
          · subst he
            rw [hb] at hb'
            cases hb'
            exact hcur
          · exact ih g hm ph' hb'
        · dsimp only
          intro g hmem ph' hb'
          rcases List.mem_cons.1 hmem with he | hm
          · subst he
            cases hb'
            rfl
          · exact ih g hm ph' hb'

theorem flushList_id_of_flushed : ∀ hs : List Handler, flushedH hs →
    flushList hs = (hs, []) := by
  intro hs
  induction hs with
  | nil => intro _; rfl
  | cons h rest ih =>
      intro hfl
      have hrest : flushList rest = (rest, []) :=
        ih (fun g hm ph hb => hfl g (List.mem_cons_of_mem _ hm) ph hb)
      unfold flushList
      rcases hb : h.body with sh | sh | ph
      · dsimp only
        rw [hrest]
      · dsimp only
        rw [hrest]
      · have hcur : ph.currentSample = none :=
          hfl h (List.mem_cons_self _ _) ph hb
        dsimp only
        rw [hcur]
        dsimp only
        rw [hrest]

theorem foldl_enqueue_spec : ∀ (es : List (Nat × Sample)) (t : TSP),
    CoreEq t (es.foldl (fun t e => enqueueSample t e.1 e.2) t) ∧
    QExt t (es.foldl (fun t e => enqueueSample t e.1 e.2) t) ∧
    (es.foldl (fun t e => enqueueSample t e.1 e.2) t).handlers = t.handlers := by
  intro es
  induction es with
  | nil => exact fun t => ⟨CoreEq_refl t, QExt_refl t, rfl⟩
  | cons e rest ih =>
      intro t
      rw [List.foldl_cons]
      have h1 := enqueueSample_spec t e.1 e.2
      have h2 := ih (enqueueSample t e.1 e.2)
      exact ⟨CoreEq_trans h1.1 h2.1, QExt_trans (QExtB_QExt h1.2.1) h2.2.1,
        h2.2.2.trans h1.2.2.1⟩

theorem flushHandlers_spec (t : TSP) :
    CoreEq t (flushHandlers t) ∧ QExt t (flushHandlers t) ∧
    flushedH (flushHandlers t).handlers := by
  unfold flushHandlers
  have hf := foldl_enqueue_spec (flushList t.handlers).2
    { t with handlers := (flushList t.handlers).1 }
  refine ⟨CoreEq_trans ⟨rfl, rfl, rfl, rfl, rfl, rfl⟩ hf.1,
    QExt_trans ⟨[], [], by simp, by simp, by simp, by simp, rfl, rfl⟩ hf.2.1,
    ?_⟩
  rw [hf.2.2]
  exact flushList_flushed t.handlers

theorem flushHandlers_id (t : TSP) (h : flushedH t.handlers) :
    flushHandlers t = t := by
  unfold flushHandlers
  rw [flushList_id_of_flushed t.handlers h]
  rfl

theorem dispatch_spec (t : TSP) (i : Nat) (p : List Nat) (off : Nat)
    (us : Bool) :
    CoreEq t (dispatchPayload t i p off us) ∧
    QExtB t (dispatchPayload t i p off us) 1 ∧
    (dispatchPayload t i p off us).log = t.log := by
  unfold dispatchPayload
  dsimp only
  rcases hb : (t.handlers.getD i dummyHandler).body with sh | sh | ph
  · dsimp only
    rcases hr : (secStep sh p off).2.1 with _ | sec
    · exact ⟨⟨rfl, rfl, rfl, rfl, rfl, rfl⟩,
        ⟨[], [], by simp, by simp, by simp, by simp, rfl, rfl, by simp⟩, rfl⟩
    · exact ⟨⟨rfl, rfl, rfl, rfl, rfl, rfl⟩,
        ⟨[], [], by simp, by simp, by simp, by simp, rfl, rfl, by simp⟩, rfl⟩
  · dsimp only
    rcases hr : (secStep sh p off).2.1 with _ | sec
    · exact ⟨⟨rfl, rfl, rfl, rfl, rfl, rfl⟩,
        ⟨[], [], by simp, by simp, by simp, by simp, rfl, rfl, by simp⟩, rfl⟩
    · exact ⟨⟨rfl, rfl, rfl, rfl, rfl, rfl⟩,
        ⟨[], [], by simp, by simp, by simp, by simp, rfl, rfl, by simp⟩, rfl⟩
  · dsimp only
    rcases hr : (pesStep ph p off us).2 with _ | s
    · dsimp only
      exact ⟨⟨rfl, rfl, rfl, rfl, rfl, rfl⟩,
        ⟨[], [], by simp, by simp, by simp, by simp, rfl, rfl, by simp⟩, rfl⟩
    · dsimp only
      have he := enqueueSample_spec
        { t with handlers := t.handlers.set i
                   { t.handlers.getD i dummyHandler with
                       body := HBody.pes (pesStep ph p off us).1 } }
        ph.type s
      obtain ⟨a0, a1, e1, e2, e3, e4, e5, e6, e7⟩ := he.2.1
      exact ⟨CoreEq_trans ⟨rfl, rfl, rfl, rfl, rfl, rfl⟩ he.1,
        ⟨a0, a1, e1, e2, e3, e4, e5, e6, e7⟩, he.2.2.2⟩

theorem QExtB_trans {t t' t'' : TSP} {m n : Nat} (h1 : QExtB t t' m)
    (h2 : QExtB t' t'' n) : QExtB t t'' (m + n) := by
  obtain ⟨a0, a1, e1, e2, e3, e4, e5, e6, e7⟩ := h1
  obtain ⟨b0, b1, f1, f2, f3, f4, f5, f6, f7⟩ := h2
  refine ⟨a0 ++ b0, a1 ++ b1, by rw [f1, e1, List.append_assoc],
    by rw [f2, e2, List.append_assoc], by rw [f3, e3, List.append_assoc],
    by rw [f4, e4, List.append_assoc], by rw [f5, e5], by rw [f6, e6], ?_⟩
  simp only [List.length_append]
  omega

theorem QExtB_queue_len {t t' : TSP} {n : Nat} (h : QExtB t t' n) (ty : Nat) :
    (queueOf t' ty).length ≤ (queueOf t ty).length + n := by
  obtain ⟨a0, a1, e1, e2, e3, e4, e5, e6, e7⟩ := h
  unfold queueOf
  by_cases h0 : ty = 0
  · rw [if_pos h0, if_pos h0, e1]
    simp only [List.length_append]
    omega
  · rw [if_neg h0, if_neg h0, e3]
    simp only [List.length_append]
    omega

theorem QExt_fields {t t' : TSP} (h : QExt t t') (ty : Nat) :
    ∃ a, queueOf t' ty = queueOf t ty ++ a ∧ enqOf t' ty = enqOf t ty ++ a ∧
      delOf t' ty = delOf t ty := by
  obtain ⟨a0, a1, e1, e2, e3, e4, e5, e6⟩ := h
  unfold queueOf enqOf delOf
  by_cases h0 : ty = 0
  · exact ⟨a0, by rw [if_pos h0, if_pos h0, e1], by rw [if_pos h0, if_pos h0, e2],
      by rw [if_pos h0, if_pos h0, e5]⟩
  · exact ⟨a1, by rw [if_neg h0, if_neg h0, e3], by rw [if_neg h0, if_neg h0, e4],
      by rw [if_neg h0, if_neg h0, e6]⟩

theorem Inv_fifo_of_QExt {t t' : TSP} (h : QExt t t')
    (h0 : t.enq0 = t.del0 ++ t.q0) (h1 : t.enq1 = t.del1 ++ t.q1) :
    t'.enq0 = t'.del0 ++ t'.q0 ∧ t'.enq1 = t'.del1 ++ t'.q1 := by
  obtain ⟨a0, a1, e1, e2, e3, e4, e5, e6⟩ := h
  constructor
  · rw [e2, e1, e5, h0, List.append_assoc]
  · rw [e4, e3, e6, h1, List.append_assoc]

theorem markCC_spec (t : TSP) (i : Nat) (p : List Nat) :
    CoreEq t (markCC t i p) ∧ QExtB t (markCC t i p) 0 := by
  unfold markCC
  by_cases h : ((t.handlers.getD i dummyHandler).cc + 1) &&& 0xf ≠ ccOf p
  · rw [if_pos h]
    exact ⟨⟨rfl, rfl, rfl, rfl, rfl, rfl⟩,
      ⟨[], [], by simp, by simp, by simp, by simp, rfl, rfl, by simp⟩⟩
  · rw [if_neg h]
    exact ⟨⟨rfl, rfl, rfl, rfl, rfl, rfl⟩,
      ⟨[], [], by simp, by simp, by simp, by simp, rfl, rfl, by simp⟩⟩

theorem readDrive_succ (fuel : Nat) (t : TSP) (ty : Nat) :
    readDrive (fuel + 1) t ty =
      if queueOf t ty ≠ [] then t
      else if (parseOnePacket t).1 = PARSE_ONE_PACKET_AGAIN then
        readDrive fuel (parseOnePacket t).2 ty
      else (parseOnePacket t).2 := rfl

theorem readN_zero (t : TSP) (ty : Nat) : readN t ty 0 = ([], t) := rfl

theorem readN_succ (t : TSP) (ty n : Nat) :
    readN t ty (n + 1) =
      ((readOne t ty).1 :: (readN (readOne t ty).2 ty n).1,
        (readN (readOne t ty).2 ty n).2) := rfl

theorem isReadFinished_iff (s : TSP) :
    nativeIsReadFinished s = true ↔
      s.inputStreamFinished = true ∧ s.q0 = [] ∧ s.q1 = [] := by
  unfold nativeIsReadFinished
  by_cases h1 : s.inputStreamFinished <;> by_cases h2 : s.q0 = [] <;>
    by_cases h3 : s.q1 = [] <;> simp [h1, h2, h3]

theorem consume_spec (t : TSP) :
    (consumePacket t).1 = PARSE_ONE_PACKET_AGAIN ∧
    (consumePacket t).2.src = t.src ∧
    (consumePacket t).2.data = t.data ∧
    (consumePacket t).2.dataSize = t.dataSize ∧
    (consumePacket t).2.dataPosition = t.dataPosition + 188 ∧
    (consumePacket t).2.dataIncompletePosition = t.dataIncompletePosition ∧
    (consumePacket t).2.inputStreamFinished = t.inputStreamFinished ∧
    QExtB t (consumePacket t).2 1 := by
  unfold consumePacket
  split
  · exact ⟨rfl, rfl, rfl, rfl, rfl, rfl, rfl,
      ⟨[], [], by simp [bumpPacket], by simp [bumpPacket], by simp [bumpPacket],
        by simp [bumpPacket], rfl, rfl, by simp⟩⟩
  · rename_i i hf
    have hm := markCC_spec (bumpPacket t) i (packetAt t)
    have hd := dispatch_spec (markCC (bumpPacket t) i (packetAt t)) i (packetAt t)
      (payloadOffsetOf (packetAt t)) (unitStartOf (packetAt t))
    have hb : QExtB t (bumpPacket t) 0 :=
      ⟨[], [], by simp [bumpPacket], by simp [bumpPacket], by simp [bumpPacket],
        by simp [bumpPacket], rfl, rfl, by simp⟩
    exact ⟨rfl, hd.1.1.trans hm.1.1, hd.1.2.1.trans hm.1.2.1,
      hd.1.2.2.1.trans hm.1.2.2.1, hd.1.2.2.2.1.trans hm.1.2.2.2.1,
      hd.1.2.2.2.2.1.trans hm.1.2.2.2.2.1, hd.1.2.2.2.2.2.trans hm.1.2.2.2.2.2,
      QExtB_trans hb (QExtB_trans hm.2 hd.2.1)⟩

theorem parse_absorb (t : TSP) (hI : Inv t)
    (hF : t.inputStreamFinished = true) :
    parseOnePacket t = (PARSE_ONE_PACKET_FINISHED, t) := by
  obtain ⟨hdip, hle, hdp, hds, hsrcd, hfin, hq0, hq1⟩ := hI
  obtain ⟨hs, hpe, hfl⟩ := hfin hF
  have hsrcR : srcR t = (-1, [], []) := by
    unfold srcR srcRead
    rw [hs]
    rfl
  have hstate : { t with inputStreamFinished := true, src := ([] : List Nat) } = t := by
    cases t with
    | mk src data dataSize dataPosition dIP isF handlers pmt q0 q1 e0 e1 d0 d1 log pc =>
        simp only at hs hF
        rw [hs, hF]
  have htc : truncCheck t = t := by
    unfold truncCheck
    rw [if_neg]
    simp only [ne_eq, not_not]
    omega
  have hrd : refillData t = t := by
    unfold refillData
    rw [hsrcR]
    rw [if_pos rfl]
    show flushHandlers (truncCheck { t with inputStreamFinished := true, src := ([] : List Nat) }) = t
    rw [hstate, htc, flushHandlers_id t hfl]
  unfold parseOnePacket
  rw [if_pos (Or.inl hpe), hrd, if_pos hF]

theorem refill_live (t : TSP) (hdip : t.dataIncompletePosition = 0)
    (hsrc188 : 188 ∣ t.src.length) (hne : t.src ≠ []) :
    (refillData t).src.length = t.src.length - min t.src.length BUFFER_SIZE ∧
    (refillData t).dataSize = min t.src.length BUFFER_SIZE ∧
    (refillData t).dataPosition = 0 ∧
    (refillData t).dataIncompletePosition = 0 ∧
    (refillData t).inputStreamFinished = t.inputStreamFinished ∧
    188 ∣ (refillData t).src.length ∧ 188 ∣ (refillData t).dataSize ∧
    (refillData t).handlers = t.handlers ∧
    (refillData t).q0 = t.q0 ∧ (refillData t).q1 = t.q1 ∧
    (refillData t).enq0 = t.enq0 ∧ (refillData t).enq1 = t.enq1 ∧
    (refillData t).del0 = t.del0 ∧ (refillData t).del1 = t.del1 := by
  have hBUF : (188 : Nat) ∣ BUFFER_SIZE := ⟨200, by norm_num [BUFFER_SIZE]⟩
  have hoff : refillOffset t = 0 := by
    unfold refillOffset
    simp [hdip]
  have hsrcR : srcR t = (((min t.src.length BUFFER_SIZE : Nat) : Int),
      t.src.take (min t.src.length BUFFER_SIZE),
      t.src.drop (min t.src.length BUFFER_SIZE)) := by
    unfold srcR srcRead
    rw [hoff]
    rw [if_neg (fun hc => hne (List.isEmpty_iff.mp hc))]
    simp only [Nat.sub_zero]
  have hmin : (188 : Nat) ∣ min t.src.length BUFFER_SIZE := by
    rcases Nat.le_total t.src.length BUFFER_SIZE with h | h
    · rw [min_eq_left h]
      exact hsrc188
    · rw [min_eq_right h]
      exact hBUF
  have htk : (t.src.take (min t.src.length BUFFER_SIZE)).length =
      min t.src.length BUFFER_SIZE := by
    rw [List.length_take]
    omega
  have hrd : refillData t = refillStore t := by
    have hcond : ¬ ((srcR t).1 = -1) := by
      rw [hsrcR]
      intro hc
      dsimp only at hc
      omega
    unfold refillData
    rw [if_neg hcond]
  have hrs : refillStore t = { t with
      src := t.src.drop (min t.src.length BUFFER_SIZE)
      data := t.data.take (refillOffset t) ++ t.src.take (min t.src.length BUFFER_SIZE)
      dataSize := refillOffset t + (t.src.take (min t.src.length BUFFER_SIZE)).length
      dataIncompletePosition := 0
      dataPosition := 0 } := by
    have hcond : ¬ ((refillOffset t + (srcR t).2.1.length) % 188 ≠ 0) := by
      rw [hsrcR, hoff]
      dsimp only
      rw [htk]
      omega
    unfold refillStore
    rw [if_neg hcond]
    rw [hsrcR]
  rw [hrd, hrs]
  refine ⟨?_, ?_, rfl, rfl, rfl, ?_, ?_, rfl, rfl, rfl, rfl, rfl, rfl, rfl⟩
  · simp only [List.length_drop]
  · simp only [hoff, htk, Nat.zero_add]
  · simp only [List.length_drop]
    omega
  · simp only [hoff, htk, Nat.zero_add]
    exact hmin

theorem parse_spec (t : TSP) (hI : Inv t)
    (hF : t.inputStreamFinished = false) :
    ((parseOnePacket t).1 = PARSE_ONE_PACKET_AGAIN ∧
      Inv (parseOnePacket t).2 ∧
      (parseOnePacket t).2.inputStreamFinished = false ∧
      mu (parseOnePacket t).2 + 188 = mu t ∧
      QExtB t (parseOnePacket t).2 1) ∨
    ((parseOnePacket t).1 = PARSE_ONE_PACKET_FINISHED ∧
      Inv (parseOnePacket t).2 ∧
      (parseOnePacket t).2.inputStreamFinished = true ∧
      QExt t (parseOnePacket t).2) := by
  obtain ⟨hdip, hle, hdp, hds, hsrcd, hfin, hq0, hq1⟩ := hI
  by_cases hpos : t.dataPosition = t.dataSize
  · by_cases hnil : t.src = []
    · right
      have hsrcR : srcR t = (-1, [], []) := by
        unfold srcR srcRead
        rw [hnil]
        rfl
      have htc : truncCheck { t with inputStreamFinished := true, src := ([] : List Nat) } =
          { t with inputStreamFinished := true, src := ([] : List Nat) } := by
        have hcond : ¬(({ t with inputStreamFinished := true, src := ([] : List Nat) }).dataSize % 188 ≠ 0) := by
          dsimp only
          omega
        unfold truncCheck
        rw [if_neg hcond]
      have hrd : refillData t =
          flushHandlers { t with inputStreamFinished := true, src := ([] : List Nat) } := by
        unfold refillData
        rw [hsrcR, if_pos rfl]
        show flushHandlers (truncCheck { t with inputStreamFinished := true, src := ([] : List Nat) }) = _
        rw [htc]
      obtain ⟨hc1, hqx, hflh⟩ :=
        flushHandlers_spec { t with inputStreamFinished := true, src := ([] : List Nat) }
      have hfin2 : (refillData t).inputStreamFinished = true := by
        rw [hrd]
        exact hc1.2.2.2.2.2
      have hpp : parseOnePacket t = (PARSE_ONE_PACKET_FINISHED, refillData t) := by
        unfold parseOnePacket
        rw [if_pos (Or.inl hpos), if_pos hfin2]
      rw [hpp]
      have hQ : QExt t (refillData t) := by
        rw [hrd]
        exact QExt_trans ⟨[], [], by simp, by simp, by simp, by simp, rfl, rfl⟩ hqx
      refine ⟨rfl, ?_, hfin2, hQ⟩
      have hfifo := Inv_fifo_of_QExt hqx hq0 hq1
      rw [show (PARSE_ONE_PACKET_FINISHED, refillData t).2 = refillData t from rfl, hrd]
      exact ⟨hc1.2.2.2.2.1.trans hdip,
        by rw [hc1.2.2.2.1, hc1.2.2.1]; exact hle,
        by rw [hc1.2.2.2.1]; exact hdp,
        by rw [hc1.2.2.1]; exact hds,
        by rw [hc1.1]; exact ⟨0, rfl⟩,
        fun _ => ⟨hc1.1, by rw [hc1.2.2.2.1, hc1.2.2.1]; exact hpos, hflh⟩,
        hfifo.1, hfifo.2⟩
    · left
      obtain ⟨f1, f2, f3, f4, f5, f6, f7, f8, f9, f10, f11, f12, f13, f14⟩ :=
        refill_live t hdip hsrcd hnil
      have hB : 0 < BUFFER_SIZE := by norm_num [BUFFER_SIZE]
      have hlen0 : t.src.length ≠ 0 := fun hc => hnil (List.length_eq_zero.mp hc)
      have hnpos : 0 < min t.src.length BUFFER_SIZE := by omega
      have hdvdn : 188 ∣ min t.src.length BUFFER_SIZE := f2 ▸ f7
      have hn188 : 188 ≤ min t.src.length BUFFER_SIZE := by omega
      have hnle : min t.src.length BUFFER_SIZE ≤ t.src.length := Nat.min_le_left _ _
      have hnotfin : (refillData t).inputStreamFinished = false := by
        rw [f5]
        exact hF
      have hcond2 : ¬((refillData t).dataPosition = (refillData t).dataSize ∨
          (refillData t).dataIncompletePosition ≠ 0) := by
        rw [f2, f3, f4]
        intro hc
        rcases hc with hc | hc
        · omega
        · exact hc rfl
      have hpp : parseOnePacket t = consumePacket (refillData t) := by
        unfold parseOnePacket
        rw [if_pos (Or.inl hpos), if_neg (by simp [hnotfin]), if_neg hcond2]
      rw [hpp]
      obtain ⟨g1, g2, g3, g4, g5, g6, g7, g8⟩ := consume_spec (refillData t)
      have hq_refill : QExtB t (refillData t) 0 :=
        ⟨[], [], by simp [f9], by simp [f11], by simp [f10], by simp [f12],
          f13, f14, by simp⟩
      have htot := QExtB_trans hq_refill g8
      have hfifo := Inv_fifo_of_QExt (QExtB_QExt htot) hq0 hq1
      refine ⟨g1, ?_, by rw [g7, f5]; exact hF, ?_, htot⟩
      · refine ⟨g6.trans f4, ?_, ?_, ?_, ?_, ?_, hfifo.1, hfifo.2⟩
        · rw [g5, g4, f3, f2]
          omega
        · rw [g5, f3]
        · rw [g4]
          exact f7
        · rw [g2]
          exact f6
        · intro hc
          rw [g7, f5, hF] at hc
          simp at hc
      · unfold mu
        rw [g2, g4, g5, f1, f2, f3]
        omega
  · left
    have hC : ¬(t.dataPosition = t.dataSize ∨ t.dataIncompletePosition ≠ 0) := by
      intro hc
      rcases hc with hc | hc
      · exact hpos hc
      · exact hc hdip
    have hpp : parseOnePacket t = consumePacket t := by
      unfold parseOnePacket
      rw [if_neg hC]
    rw [hpp]
    obtain ⟨g1, g2, g3, g4, g5, g6, g7, g8⟩ := consume_spec t
    have hple : t.dataPosition + 188 ≤ t.dataSize := by omega
    have hfifo := Inv_fifo_of_QExt (QExtB_QExt g8) hq0 hq1
    refine ⟨g1, ?_, g7.trans hF, ?_, g8⟩
    · refine ⟨g6.trans hdip, ?_, ?_, ?_, ?_, ?_, hfifo.1, hfifo.2⟩
      · rw [g5, g4]
        exact hple
      · rw [g5]
        omega
      · rw [g4]
        exact hds
      · rw [g2]
        exact hsrcd
      · intro hc
        rw [g7, hF] at hc
        simp at hc
    · unfold mu
      rw [g2, g4, g5]
      omega

theorem drive_spec (ty : Nat) : ∀ fuel t, Inv t → mu t < fuel →
    Inv (readDrive fuel t ty) ∧ QExt t (readDrive fuel t ty) ∧
    (queueOf (readDrive fuel t ty) ty ≠ [] ∨
      (readDrive fuel t ty).inputStreamFinished = true) ∧
    (t.inputStreamFinished = true → readDrive fuel t ty = t) ∧
    ((readDrive fuel t ty).inputStreamFinished = false →
      mu (readDrive fuel t ty) + (queueOf (readDrive fuel t ty) ty).length ≤
        mu t + (queueOf t ty).length) := by
  intro fuel
  induction fuel with
  | zero =>
      intro t _ h
      omega
  | succ fuel ih =>
      intro t hI hmu
      rw [readDrive_succ]
      by_cases hq : queueOf t ty ≠ []
      · rw [if_pos hq]
        exact ⟨hI, QExt_refl t, Or.inl hq, fun _ => rfl, fun _ => le_refl _⟩
      · rw [if_neg hq]
        cases hfin : t.inputStreamFinished with
        | true =>
            have habs := parse_absorb t hI hfin
            have hne : ¬((PARSE_ONE_PACKET_FINISHED, t).1 = PARSE_ONE_PACKET_AGAIN) := by
              intro hc
              have hc2 : PARSE_ONE_PACKET_FINISHED = PARSE_ONE_PACKET_AGAIN := hc
              exact absurd hc2 (by decide)
            rw [habs, if_neg hne]
            exact ⟨hI, QExt_refl t, Or.inr hfin, fun _ => rfl, fun _ => le_refl _⟩
        | false =>
            rcases parse_spec t hI hfin with
              ⟨hcode, hI2, hF2, hmu2, hQ⟩ | ⟨hcode, hI2, hF2, hQ⟩
            · rw [if_pos hcode]
              have ihh := ih (parseOnePacket t).2 hI2 (by omega)
              refine ⟨ihh.1, QExt_trans (QExtB_QExt hQ) ihh.2.1, ihh.2.2.1, ?_, ?_⟩
              · intro hc
                exact absurd hc (by decide)
              · intro hfin2
                have h5 := ihh.2.2.2.2 hfin2
                have hql := QExtB_queue_len hQ ty
                omega
            · rw [if_neg (by rw [hcode]; decide)]
              refine ⟨hI2, hQ, Or.inr hF2, ?_, ?_⟩
              · intro hc
                exact absurd hc (by decide)
              · intro hc
                exact absurd (hF2.symm.trans hc) (by decide)

theorem driveOf_spec (t : TSP) (ty : Nat) (hI : Inv t) :
    Inv (driveOf t ty) ∧ QExt t (driveOf t ty) ∧
    (queueOf (driveOf t ty) ty ≠ [] ∨ (driveOf t ty).inputStreamFinished = true) ∧
    (t.inputStreamFinished = true → driveOf t ty = t) ∧
    ((driveOf t ty).inputStreamFinished = false →
      mu (driveOf t ty) + (queueOf (driveOf t ty) ty).length ≤
        mu t + (queueOf t ty).length) := by
  unfold driveOf
  exact drive_spec ty (t.src.length + t.dataSize + 1) t hI (by unfold mu; omega)

theorem popSample_spec (t : TSP) (ty : Nat) (rest : List Sample) (s : Sample)
    (hI : Inv t) (hq : queueOf t ty = s :: rest) :
    Inv (popSample t ty rest s) ∧
    delOf (popSample t ty rest s) ty = delOf t ty ++ [s] ∧
    queueOf (popSample t ty rest s) ty = rest ∧
    (popSample t ty rest s).inputStreamFinished = t.inputStreamFinished ∧
    mu (popSample t ty rest s) = mu t := by
  obtain ⟨hdip, hle, hdp, hds, hsrcd, hfin, hq0, hq1⟩ := hI
  unfold queueOf at hq
  unfold Inv popSample queueOf delOf
  by_cases h0 : ty = 0
  · rw [if_pos h0] at hq
    simp only [if_pos h0]
    refine ⟨⟨hdip, hle, hdp, hds, hsrcd, ?_, ?_, hq1⟩, by trivial, by trivial, by trivial, by trivial⟩
    · intro hf
      obtain ⟨a, b, c⟩ := hfin hf
      exact ⟨a, b, c⟩
    · show t.enq0 = (t.del0 ++ [s]) ++ rest
      rw [hq0, hq]
      simp
  · rw [if_neg h0] at hq
    simp only [if_neg h0]
    refine ⟨⟨hdip, hle, hdp, hds, hsrcd, ?_, hq0, ?_⟩, by trivial, by trivial, by trivial, by trivial⟩
    · intro hf
      obtain ⟨a, b, c⟩ := hfin hf
      exact ⟨a, b, c⟩
    · show t.enq1 = (t.del1 ++ [s]) ++ rest
      rw [hq1, hq]
      simp

theorem readOne_absorb (t : TSP) (ty : Nat) (hI : Inv t)
    (hF : t.inputStreamFinished = true) (hq : queueOf t ty = []) :
    readOne t ty = ((RESULT_END_OF_STREAM, none), t) := by
  have hd := (driveOf_spec t ty hI).2.2.2.1 hF
  unfold readOne
  rw [hd, hq]
  dsimp only
  rw [if_pos hF]

theorem readOne_pop_fin (t : TSP) (ty : Nat) (s : Sample) (rest : List Sample)
    (hI : Inv t) (hF : t.inputStreamFinished = true)
    (hq : queueOf t ty = s :: rest) :
    readOne t ty = ((RESULT_READ_SAMPLE_FULL, some s), popSample t ty rest s) := by
  have hd := (driveOf_spec t ty hI).2.2.2.1 hF
  unfold readOne
  rw [hd, hq]

theorem readOne_spec (t : TSP) (ty : Nat) (hI : Inv t) :
    Inv (readOne t ty).2 ∧
    ((readOne t ty).2.inputStreamFinished = false →
      mu (readOne t ty).2 + (queueOf (readOne t ty).2 ty).length <
        mu t + (queueOf t ty).length) ∧
    ((∃ s, (readOne t ty).1 = (RESULT_READ_SAMPLE_FULL, some s) ∧
        delOf (readOne t ty).2 ty = delOf t ty ++ [s]) ∨
      ((readOne t ty).1 = (RESULT_END_OF_STREAM, none) ∧
        (readOne t ty).2.inputStreamFinished = true ∧
        queueOf (readOne t ty).2 ty = [] ∧
        delOf (readOne t ty).2 ty = delOf t ty)) := by
  obtain ⟨hId, hQd, hD3, hD4, hD5⟩ := driveOf_spec t ty hI
  obtain ⟨ad, hqd, henqd, hdeld⟩ := QExt_fields hQd ty
  unfold readOne
  rcases hq : queueOf (driveOf t ty) ty with _ | ⟨s, rest⟩
  · have hfind : (driveOf t ty).inputStreamFinished = true := by
      rcases hD3 with h | h
      · exact absurd hq h
      · exact h
    dsimp only
    rw [if_pos hfind]
    refine ⟨hId, ?_, Or.inr ⟨rfl, hfind, hq, hdeld⟩⟩
    intro hc
    exact absurd (hfind.symm.trans hc) (by decide)
  · have hps := popSample_spec (driveOf t ty) ty rest s hId hq
    obtain ⟨hIp, hdelp, hqp, hfp, hmup⟩ := hps
    dsimp only
    refine ⟨hIp, ?_, Or.inl ⟨s, rfl, by rw [hdelp, hdeld]⟩⟩
    intro hc
    have hdf : (driveOf t ty).inputStreamFinished = false := hfp.symm.trans hc
    have h5 := hD5 hdf
    have hlen : (queueOf (driveOf t ty) ty).length = rest.length + 1 := by
      rw [hq]
      rfl
    rw [hmup, hqp]
    omega

theorem drain_fin (ty : Nat) : ∀ k t, Inv t → t.inputStreamFinished = true →
    (queueOf t ty).length = k → DrainsTo t ty := by
  intro k
  induction k with
  | zero =>
      intro t hI hF hlen
      have hq : queueOf t ty = [] := List.length_eq_zero.mp hlen
      have habs := readOne_absorb t ty hI hF hq
      refine ⟨0, [], t, ?_, ?_, ?_, hF, hq, hI⟩
      · rw [readN_succ, habs]
        dsimp only
        rw [readN_zero]
        simp
      · intro r hr
        simp at hr
      · simp
  | succ k ih =>
      intro t hI hF hlen
      obtain ⟨s, rest, hq⟩ : ∃ s rest, queueOf t ty = s :: rest := by
        cases hcase : queueOf t ty with
        | nil =>
            rw [hcase] at hlen
            simp at hlen
        | cons a l => exact ⟨a, l, rfl⟩
      have hro := readOne_pop_fin t ty s rest hI hF hq
      obtain ⟨hIp, hdelp, hqp, hfp, hmup⟩ := popSample_spec t ty rest s hI hq
      have hlrest : (queueOf (popSample t ty rest s) ty).length = k := by
        rw [hqp]
        rw [hq] at hlen
        simp only [List.length_cons] at hlen
        omega
      have hFp : (popSample t ty rest s).inputStreamFinished = true := hfp.trans hF
      obtain ⟨n, rs, t', h1, h2, h3, h4, h5, h6⟩ :=
        ih (popSample t ty rest s) hIp hFp hlrest
      refine ⟨n + 1, (RESULT_READ_SAMPLE_FULL, some s) :: rs, t', ?_, ?_, ?_, h4, h5, h6⟩
      · rw [readN_succ, hro]
        dsimp only
        rw [h1]
        simp
      · intro r hr
        rcases List.mem_cons.1 hr with he | hm
        · rw [he]
        · exact h2 r hm
      · rw [h3, hdelp]
        simp [List.filterMap_cons, List.append_assoc]

theorem drain_live (ty : Nat) : ∀ N t, Inv t → t.inputStreamFinished = false →
    mu t + (queueOf t ty).length < N → DrainsTo t ty := by
  intro N
  induction N with
  | zero =>
      intro t _ _ h
      omega
  | succ N ih =>
      intro t hI hF hM
      obtain ⟨hI1, hmeas, hdisj⟩ := readOne_spec t ty hI
      rcases hdisj with ⟨s, hfull, hdel⟩ | ⟨heos, hfin1, hq1e, hdel⟩
      · cases hfin1 : (readOne t ty).2.inputStreamFinished with
        | true =>
            obtain ⟨n, rs, t', h1, h2, h3, h4, h5, h6⟩ :=
              drain_fin ty (queueOf (readOne t ty).2 ty).length (readOne t ty).2
                hI1 hfin1 rfl
            refine ⟨n + 1, (RESULT_READ_SAMPLE_FULL, some s) :: rs, t',
              ?_, ?_, ?_, h4, h5, h6⟩
            · rw [readN_succ, hfull, h1]
              simp
            · intro r hr
              rcases List.mem_cons.1 hr with he | hm
              · rw [he]
              · exact h2 r hm
            · rw [h3, hdel]
              simp [List.filterMap_cons, List.append_assoc]
        | false =>
            have hm := hmeas hfin1
            obtain ⟨n, rs, t', h1, h2, h3, h4, h5, h6⟩ :=
              ih (readOne t ty).2 hI1 hfin1 (by omega)
            refine ⟨n + 1, (RESULT_READ_SAMPLE_FULL, some s) :: rs, t',
              ?_, ?_, ?_, h4, h5, h6⟩
            · rw [readN_succ, hfull, h1]
              simp
            · intro r hr
              rcases List.mem_cons.1 hr with he | hm
              · rw [he]
              · exact h2 r hm
            · rw [h3, hdel]
              simp [List.filterMap_cons, List.append_assoc]
      · refine ⟨0, [], (readOne t ty).2, ?_, ?_, ?_, hfin1, hq1e, hI1⟩
        · rw [readN_succ, heos, readN_zero]
          simp
        · intro r hr
          simp at hr
        · rw [hdel]
          simp

theorem readN_add (ty : Nat) : ∀ a t b, readN t ty (a + b) =
    ((readN t ty a).1 ++ (readN (readN t ty a).2 ty b).1,
      (readN (readN t ty a).2 ty b).2) := by
  intro a
  induction a with
  | zero =>
      intro t b
      rw [Nat.zero_add, readN_zero]
      simp
  | succ a ih =>
      intro t b
      have he : a + 1 + b = (a + b) + 1 := by omega
      rw [he, readN_succ, readN_succ]
      rw [ih (readOne t ty).2 b]
      simp

theorem readN_absorb_all (t : TSP) (ty : Nat) (hI : Inv t)
    (hF : t.inputStreamFinished = true) (hq : queueOf t ty = []) :
    ∀ m, readN t ty m =
      (List.replicate m (RESULT_END_OF_STREAM, (none : Option Sample)), t) := by
  intro m
  induction m with
  | zero => rfl
  | succ m ih =>
      rw [readN_succ, readOne_absorb t ty hI hF hq]
      dsimp only
      rw [ih]
      simp [List.replicate_succ]

/-! ## Claim C7: eventual EndOfStream after draining the per-type queue -/

/-- Claim C7: for every input stream whose length is a multiple of 188,
repeated `nativeRead(type)` calls eventually return EndOfStream, and only
after having returned (as Full, in FIFO order) exactly the access units ever
enqueued for that type — including any in-progress unit flushed at end of
stream (the ghost `enq` list records every enqueue, the flush included);
after that every further read returns EndOfStream with the state unchanged.
And `nativeIsReadFinished` returns true exactly when the source is exhausted
and both per-type queues are empty. -/
theorem c7_reads_drain_to_end_of_stream (src : List Nat) (k ty : Nat)
    (hlen : src.length = 188 * k) (hty : ty < 2) :
    (∃ N rs tN,
      readN (tsparserCreate src) ty (N + 1) =
        (rs ++ [(RESULT_END_OF_STREAM, (none : Option Sample))], tN) ∧
      (∀ r ∈ rs, r.1 = RESULT_READ_SAMPLE_FULL) ∧
      rs.filterMap (fun r => r.2) = enqOf tN ty ∧
      tN.inputStreamFinished = true ∧ queueOf tN ty = [] ∧
      (∀ m, readN (tsparserCreate src) ty (N + 1 + m) =
        (rs ++ List.replicate (m + 1) (RESULT_END_OF_STREAM, (none : Option Sample)),
          tN))) ∧
    (∀ s : TSP, nativeIsReadFinished s = true ↔
      s.inputStreamFinished = true ∧ s.q0 = [] ∧ s.q1 = []) := by
  constructor
  · have hI0 : Inv (tsparserCreate src) := by
      refine ⟨rfl, le_refl 0, ⟨0, rfl⟩, ⟨0, rfl⟩, ⟨k, hlen⟩, ?_, rfl, rfl⟩
      intro hc
      simp [tsparserCreate] at hc
    have hF0 : (tsparserCreate src).inputStreamFinished = false := rfl
    obtain ⟨n, rs, tN, h1, h2, h3, h4, h5, h6⟩ :=
      drain_live ty
        (mu (tsparserCreate src) + (queueOf (tsparserCreate src) ty).length + 1)
        (tsparserCreate src) hI0 hF0 (by omega)
    have hdel0 : delOf (tsparserCreate src) ty = [] := by
      unfold delOf
      split <;> rfl
    have hfifoN : enqOf tN ty = delOf tN ty ++ queueOf tN ty := by
      obtain ⟨_, _, _, _, _, _, hf0, hf1⟩ := h6
      unfold enqOf delOf queueOf
      by_cases h0 : ty = 0
      · simp only [if_pos h0]
        exact hf0
      · simp only [if_neg h0]
        exact hf1
    have h3' : rs.filterMap (fun r => r.2) = enqOf tN ty := by
      rw [hfifoN, h5, List.append_nil, h3, hdel0, List.nil_append]
    refine ⟨n, rs, tN, h1, h2, h3', h4, h5, ?_⟩
    intro m
    rw [readN_add ty (n + 1) (tsparserCreate src) m, h1]
    dsimp only
    rw [readN_absorb_all tN ty h6 h4 h5 m]
    simp [List.replicate_succ]
  · intro s
    exact isReadFinished_iff s

/-- Witness for `c7_reads_drain_to_end_of_stream` at the empty source and the
video type: the hypotheses hold concretely and the theorem applies. -/
theorem c7_reads_drain_to_end_of_stream_witness :
    ([] : List Nat).length = 188 * 0 ∧ (0 : Nat) < 2 ∧
    ((∃ N rs tN,
      readN (tsparserCreate []) 0 (N + 1) =
        (rs ++ [(RESULT_END_OF_STREAM, (none : Option Sample))], tN) ∧
      (∀ r ∈ rs, r.1 = RESULT_READ_SAMPLE_FULL) ∧
      rs.filterMap (fun r => r.2) = enqOf tN 0 ∧
      tN.inputStreamFinished = true ∧ queueOf tN 0 = [] ∧
      (∀ m, readN (tsparserCreate []) 0 (N + 1 + m) =
        (rs ++ List.replicate (m + 1) (RESULT_END_OF_STREAM, (none : Option Sample)),
          tN))) ∧
    (∀ s : TSP, nativeIsReadFinished s = true ↔
      s.inputStreamFinished = true ∧ s.q0 = [] ∧ s.q1 = [])) :=
  ⟨rfl, by decide, c7_reads_drain_to_end_of_stream [] 0 0 rfl (by decide)⟩

end TSX

